import Mathlib

/-!
Verification of the layout/formatting engine (Formatter, Accidental column
layout) of this repository, as a shallow embedding in Lean 4.

Conventions:
- Pixel and stave-line quantities are embedded as `ℚ` (the source uses JS
  doubles, but every operation relevant to the claims is exact field
  arithmetic and comparison); quantities that genuinely need `Real.sqrt`
  are split off into `ℝ`-valued combinators at the outermost layer.
- Stateful methods become functions from a state structure to a new state
  (plus return value); methods that `throw new RuntimeError(...)` return
  `Except RuntimeErr _`.
- Code of the repository that is not under src/ (fraction.ts, voice.ts,
  tickcontext.ts, tables.ts, metrics.ts) is modelled from the spec; each
  such definition carries a `Modelled from the spec:` doc comment.
-/

namespace Vex

/-- `Math.abs` on the embedded numeric type. -/
def absQ (q : ℚ) : ℚ := if q < 0 then -q else q

theorem absQ_eq_abs (q : ℚ) : absQ q = |q| := by
  unfold absQ
  rcases lt_or_le q 0 with h | h
  · rw [if_pos h, abs_of_neg h]
  · rw [if_neg (not_lt.mpr h), abs_of_nonneg h]

/-- The distinctly named error conditions raised via `RuntimeError` in the
formatter sources (src/unnamed/part_003). -/
inductive RuntimeErr where
  | BadArgument
  | TickMismatch
  | IncompleteVoice
  | NoMinTotalWidth
  | NoTickContexts
  deriving DecidableEq, Repr

/-! ## Accidental layout (src/unnamed/part_004)

`StaveLineAccidentalLayoutMetrics`: the per-stave-line aggregation record
built by `Accidental.format`.  The `column` field is mutated in place by the
source; the functional embedding below instead returns the assigned columns
as a separate list, and keeps `column` only so the record mirrors the
source type. -/
structure LineMetric where
  line : ℚ
  flatLine : Bool
  dblSharpLine : Bool
  numAcc : ℕ
  width : ℚ
  column : ℕ
  deriving DecidableEq, Repr

instance : Inhabited LineMetric := ⟨⟨0, false, false, 0, 0, 0⟩⟩

namespace Accidental

/-- `Accidental.checkCollision` (src/unnamed/part_004 lines 378-397):
whether two lines of accidentals collide vertically.  `clearance` is
`line2.line - line1.line`; the required clearance is 3.0, or 2.5 when the
line with the larger line value is flat-only or double-sharp-only; the
measured clearance is decreased by 0.5 when the other line is
double-sharp-only. -/
def checkCollision (line1 line2 : LineMetric) : Bool :=
  let clearance : ℚ := line2.line - line1.line
  if 0 < clearance then
    -- then line 2 is on top
    let clearanceRequired : ℚ := if line2.flatLine || line2.dblSharpLine then 5/2 else 3
    let clearance2 : ℚ := if line1.dblSharpLine then clearance - 1/2 else clearance
    decide (absQ clearance2 < clearanceRequired)
  else
    -- line 1 is on top
    let clearanceRequired : ℚ := if line1.flatLine || line1.dblSharpLine then 5/2 else 3
    let clearance2 : ℚ := if line2.dblSharpLine then clearance - 1/2 else clearance
    decide (absQ clearance2 < clearanceRequired)

/-- The required clearance attributed by the claim to a pair of lines whose
higher (larger-line-value) member is `hi`: 3.0 stave-line units, reduced to
2.5 when `hi` is a flat-only or double-sharp-only line. -/
def requiredClearanceBase (hi : LineMetric) : ℚ :=
  if hi.flatLine || hi.dblSharpLine then 5/2 else 3

/-- The collision predicate exactly as the claim for `checkCollision`
states it: the absolute line-difference is less than the required
clearance of `requiredClearanceBase` of the higher of the two lines, with
a further 0.5 reduction when the lower line is double-sharp-only,
symmetrically in the two arguments. -/
def claimedCollision (line1 line2 : LineMetric) : Prop :=
  let hi : LineMetric := if line1.line ≤ line2.line then line2 else line1
  let lo : LineMetric := if line1.line ≤ line2.line then line1 else line2
  absQ (line2.line - line1.line) <
    requiredClearanceBase hi - (if lo.dblSharpLine then 1/2 else 0)

instance (line1 line2 : LineMetric) : Decidable (claimedCollision line1 line2) := by
  unfold claimedCollision; exact inferInstance

end Accidental

/-- C2 counterexample: at `line1 = {line 0, double-sharp-only}` and
`line2 = {line 3, plain}` the absolute line-difference is 3 and the
claim's required clearance is `3 - 0.5 = 2.5`, so the claim says the lines
do not collide; yet `checkCollision` returns `true` (its `clearance -= 0.5`
adjustment enlarges the collision range instead of shrinking it when the
smaller-valued line is passed first).  Swapping the arguments returns
`false`, so the function is also not symmetric in its two arguments, while
the claim asserts it behaves symmetrically for both orderings. -/
theorem checkCollision_claim_counterexample :
    Accidental.checkCollision ⟨0, false, true, 1, 10, 0⟩ ⟨3, false, false, 1, 10, 0⟩ = true ∧
    ¬ Accidental.claimedCollision ⟨0, false, true, 1, 10, 0⟩ ⟨3, false, false, 1, 10, 0⟩ ∧
    Accidental.checkCollision ⟨3, false, false, 1, 10, 0⟩ ⟨0, false, true, 1, 10, 0⟩ = false := by
  refine ⟨?_, ?_, ?_⟩ <;>
    norm_num [Accidental.checkCollision, Accidental.claimedCollision,
      Accidental.requiredClearanceBase, absQ]

/-- C2 (amended): `checkCollision line1 line2` returns `true` iff the
absolute line-difference is less than the required clearance, where the
base clearance is 3.0 reduced to 2.5 when the line with the larger line
value is flat-only or double-sharp-only, and the double-sharp-only
adjustment of 0.5 for the other line depends on argument order: when
`line1.line < line2.line` it is added to the required clearance (enlarging
the collision range), and otherwise it is subtracted from it (shrinking
the collision range); the function is therefore not symmetric in its
arguments. -/
theorem checkCollision_iff (line1 line2 : LineMetric) :
    Accidental.checkCollision line1 line2 = true ↔
      (if line1.line < line2.line then
        |line2.line - line1.line| <
          Accidental.requiredClearanceBase line2 + (if line1.dblSharpLine then 1/2 else 0)
      else
        |line2.line - line1.line| <
          Accidental.requiredClearanceBase line1 - (if line2.dblSharpLine then 1/2 else 0)) := by
  unfold Accidental.checkCollision Accidental.requiredClearanceBase
  simp only [decide_eq_true_eq, absQ_eq_abs]
  split_ifs with h1 h2 h3 h4 h2 h3 h4 <;>
    first
      | (exfalso; linarith)
      | (simp only [decide_eq_true_eq]
         rw [abs_lt, abs_lt]
         constructor <;> intro hlt <;> exact ⟨by linarith [hlt.1, hlt.2], by linarith [hlt.1, hlt.2]⟩)

/-! ### Column assignment (`Accidental.format`, src/unnamed/part_004 lines 61-321)

The embedding is functional: the list `staveLineAccidentalLayoutMetrics`
is a `List LineMetric` (strictly descending in `line`, since equal lines
are bucketed into one metric), and the per-line `column` assignments are
returned as a `List ℕ` aligned with it. -/

/-- Indexing into the metrics list (a total stand-in for JS array access;
all uses in the algorithm are in bounds). -/
def mget (ms : List LineMetric) (i : ℕ) : LineMetric := ms.getD i default

/-- Collision of the metrics at indices `i` and `j`, in the argument order
`Accidental.format` uses (earlier index first). -/
def collAt (ms : List LineMetric) (i j : ℕ) : Bool :=
  Accidental.checkCollision (mget ms i) (mget ms j)

/-- The `endCase` classifier strings of `Accidental.format`. -/
inductive EndCase where
  | a
  | b
  | secondOnBottom
  | spacedOutTetrachord
  | spacedOutPentachord
  | verySpacedOutPentachord
  | spacedOutHexachord
  | verySpacedOutHexachord
  deriving DecidableEq, Repr

/-- Modelled from the spec: `Tables.accidentalColumnsTable` lives in
tables.ts, which is not under src/.  The spec describes it as a fixed
lookup table of canonical accidental-column layouts for groups of size
at most 6, keyed by group size and the `endCase` classifier, reproducing
the classic triangular and spaced-out engraving patterns bit-for-bit;
the canonical entries are reproduced here. -/
def Tables.accidentalColumnsTable (groupLength : ℕ) (c : EndCase) : List ℕ :=
  match groupLength, c with
  | 1, .a => [1]
  | 1, .b => [1]
  | 2, .a => [1, 2]
  | 2, .b => [1, 2]
  | 3, .a => [1, 3, 2]
  | 3, .b => [1, 2, 1]
  | 3, .secondOnBottom => [1, 2, 3]
  | 4, .a => [1, 3, 4, 2]
  | 4, .b => [1, 2, 3, 1]
  | 4, .spacedOutTetrachord => [1, 2, 1, 2]
  | 5, .a => [1, 3, 5, 4, 2]
  | 5, .b => [1, 2, 4, 3, 1]
  | 5, .spacedOutPentachord => [1, 2, 3, 2, 1]
  | 5, .verySpacedOutPentachord => [1, 2, 1, 2, 1]
  | 6, .a => [1, 3, 5, 6, 4, 2]
  | 6, .b => [1, 2, 4, 5, 3, 1]
  | 6, .spacedOutHexachord => [1, 3, 2, 1, 3, 2]
  | 6, .verySpacedOutHexachord => [1, 2, 1, 2, 1, 2]
  | _, _ => []

/-- `lineDifference` of `Accidental.format`, relative to group start `s`. -/
def lineDiff (ms : List LineMetric) (s a b : ℕ) : ℚ :=
  (mget ms (s + a)).line - (mget ms (s + b)).line

/-- `notColliding` of `Accidental.format` for one index pair, relative to
group start `s`. -/
def notColl (ms : List LineMetric) (s a b : ℕ) : Bool :=
  ! collAt ms (s + a) (s + b)

/-- The `endCase` classification of `Accidental.format` (lines 241-277)
for the conflict group occupying indices `[s, e]` of the metrics list:
`a`/`b` according to whether the group's outer lines collide, refined by
the special sub-patterns for group sizes 3 to 6. -/
def computeEndCase (ms : List LineMetric) (s e : ℕ) : EndCase :=
  let base : EndCase := if collAt ms s e then .a else .b
  let groupLength := e - s + 1
  if groupLength = 3 then
    if base = .a ∧ lineDiff ms s 1 2 = 1/2 ∧ lineDiff ms s 0 1 ≠ 1/2 then .secondOnBottom else base
  else if groupLength = 4 then
    if notColl ms s 0 2 ∧ notColl ms s 1 3 then .spacedOutTetrachord else base
  else if groupLength = 5 then
    if base = .b ∧ notColl ms s 1 3 then
      if notColl ms s 0 2 ∧ notColl ms s 2 4 then .verySpacedOutPentachord
      else .spacedOutPentachord
    else base
  else if groupLength = 6 then
    if notColl ms s 0 2 ∧ notColl ms s 2 4 ∧ notColl ms s 1 3 ∧ notColl ms s 3 5 then
      .verySpacedOutHexachord
    else if notColl ms s 0 3 ∧ notColl ms s 1 4 ∧ notColl ms s 2 5 then .spacedOutHexachord
    else base
  else base

/-- Whether some pair of lines `p` apart (anywhere in the metrics list, as
in the source's pattern-length scan) collides. -/
def hasCollisionApart (ms : List LineMetric) (p : ℕ) : Bool :=
  (List.range ms.length).any fun x => decide (x + p < ms.length) && collAt ms x (x + p)

theorem lt_of_hasCollisionApart {ms : List LineMetric} {p : ℕ}
    (h : hasCollisionApart ms p = true) : p < ms.length := by
  unfold hasCollisionApart at h
  rw [List.any_eq_true] at h
  obtain ⟨x, _, hx⟩ := h
  rw [Bool.and_eq_true, decide_eq_true_eq] at hx
  omega

/-- The pattern-length search of `Accidental.format` (lines 283-301) for
groups of seven or more: starting from `p`, increase the candidate period
until no two lines that distance apart collide. -/
def patternSearch (ms : List LineMetric) (p : ℕ) : ℕ :=
  if h : hasCollisionApart ms p = true then patternSearch ms (p + 1) else p
termination_by ms.length - p
decreasing_by
  have := lt_of_hasCollisionApart h
  omega

/-- The group-extension scan of `Accidental.format` (lines 206-224): the
index of the last member of the conflict group starting at `s` (extend
while the current line collides with the next). -/
def runEnd (ms : List LineMetric) (s : ℕ) : ℕ :=
  if h : s + 1 < ms.length ∧ collAt ms s (s + 1) = true then runEnd ms (s + 1) else s
termination_by ms.length - s
decreasing_by omega

theorem runEnd_ge (ms : List LineMetric) (s : ℕ) : s ≤ runEnd ms s := by
  have H : ∀ n s, ms.length - s ≤ n → s ≤ runEnd ms s := by
    intro n
    induction n with
    | zero =>
      intro s hn
      rw [runEnd]
      split
      next h => omega
      next => exact le_refl s
    | succ n ih =>
      intro s hn
      rw [runEnd]
      split
      next h => exact le_trans (Nat.le_succ s) (ih (s + 1) (by omega))
      next => exact le_refl s
  exact H (ms.length - s) s (le_refl _)

theorem runEnd_lt_length (ms : List LineMetric) (s : ℕ) (hs : s < ms.length) :
    runEnd ms s < ms.length := by
  have H : ∀ n s, ms.length - s ≤ n → s < ms.length → runEnd ms s < ms.length := by
    intro n
    induction n with
    | zero => intro s hn hs; omega
    | succ n ih =>
      intro s hn hs
      rw [runEnd]
      split
      next h => exact ih (s + 1) (by omega) h.1
      next => exact hs
  exact H (ms.length - s) s (le_refl _) hs

/-- At the group end the scan stopped: either the list is exhausted or the
next line does not collide. -/
theorem runEnd_stop (ms : List LineMetric) (s : ℕ) :
    ¬ (runEnd ms s + 1 < ms.length ∧ collAt ms (runEnd ms s) (runEnd ms s + 1) = true) := by
  have H : ∀ n s, ms.length - s ≤ n →
      ¬ (runEnd ms s + 1 < ms.length ∧ collAt ms (runEnd ms s) (runEnd ms s + 1) = true) := by
    intro n
    induction n with
    | zero =>
      intro s hn
      rw [runEnd]
      split
      next h => omega
      next h => exact h
    | succ n ih =>
      intro s hn
      rw [runEnd]
      split
      next h => exact ih (s + 1) (by omega)
      next h => exact h
  exact H (ms.length - s) s (le_refl _)

theorem patternSearch_ge (ms : List LineMetric) (p : ℕ) : p ≤ patternSearch ms p := by
  have H : ∀ n p, ms.length - p ≤ n → p ≤ patternSearch ms p := by
    intro n
    induction n with
    | zero =>
      intro p hn
      rw [patternSearch]
      split
      next h => have := lt_of_hasCollisionApart h; omega
      next => exact le_refl p
    | succ n ih =>
      intro p hn
      rw [patternSearch]
      split
      next h =>
        have := lt_of_hasCollisionApart h
        exact le_trans (Nat.le_succ p) (ih (p + 1) (by omega))
      next => exact le_refl p
  exact H (ms.length - p) p (le_refl _)

/-- The pattern search stops at a period with no collisions that distance
apart. -/
theorem patternSearch_spec (ms : List LineMetric) (p : ℕ) :
    hasCollisionApart ms (patternSearch ms p) = false := by
  have H : ∀ n p, ms.length - p ≤ n → hasCollisionApart ms (patternSearch ms p) = false := by
    intro n
    induction n with
    | zero =>
      intro p hn
      rw [patternSearch]
      split
      next h => have := lt_of_hasCollisionApart h; omega
      next h => exact Bool.not_eq_true _ ▸ Bool.eq_false_iff.mpr (fun hc => h hc)
    | succ n ih =>
      intro p hn
      rw [patternSearch]
      split
      next h =>
        have := lt_of_hasCollisionApart h
        exact ih (p + 1) (by omega)
      next h => exact Bool.eq_false_iff.mpr (fun hc => h hc)
  exact H (ms.length - p) p (le_refl _)

theorem hasCollisionApart_eq_false_iff (ms : List LineMetric) (p : ℕ) :
    hasCollisionApart ms p = false ↔
      ∀ x, x + p < ms.length → collAt ms x (x + p) = false := by
  unfold hasCollisionApart
  rw [List.any_eq_false]
  constructor
  · intro h x hx
    have hmem := h x (List.mem_range.mpr (by omega))
    rw [Bool.and_eq_true, decide_eq_true_eq, not_and] at hmem
    exact Bool.eq_false_iff.mpr (hmem hx)
  · intro h x _
    rw [Bool.and_eq_true, decide_eq_true_eq, not_and]
    intro hx
    rw [h x hx]
    exact Bool.false_ne_true

/-- Column assignment for the conflict group occupying indices `[s, e]`
(`Accidental.format` lines 279-316): groups of seven or more get the
ascending-parallel pattern `(position mod patternLength) + 1`; smaller
groups get the canonical table row for their size and `endCase`. -/
def groupColumns (ms : List LineMetric) (s e : ℕ) : List ℕ :=
  let groupLength := e - s + 1
  if 7 ≤ groupLength then
    let patternLength := patternSearch ms 2
    (List.range groupLength).map fun t => t % patternLength + 1
  else
    Tables.accidentalColumnsTable groupLength (computeEndCase ms s e)

/-- The outer group loop of `Accidental.format` (lines 206-321), emitting
the column for every metrics index from `s` on: assign the group starting
at `s`, then continue just past its end. -/
def colsFrom (ms : List LineMetric) (s : ℕ) : List ℕ :=
  if h : s < ms.length then
    groupColumns ms s (runEnd ms s) ++ colsFrom ms (runEnd ms s + 1)
  else []
termination_by ms.length - s
decreasing_by
  have : s ≤ runEnd ms s := runEnd_ge ms s
  omega

/-- The columns assigned by `Accidental.format` to the whole metrics
list. -/
def assignColumns (ms : List LineMetric) : List ℕ := colsFrom ms 0

/-! ### Invariants of the metrics list

`Accidental.format` sorts the accidentals by descending line and buckets
equal lines into a single metric, so the metrics list is strictly
descending in `line`; lines are measured at half-line granularity
(`Math.round((y / lineSpace) * 2) / 2`), so every line is a half-integer. -/

/-- The metrics list is strictly descending in `line`. -/
def SortedDesc (ms : List LineMetric) : Prop :=
  ms.Pairwise fun a b => b.line < a.line

/-- Every line value is an integer multiple of one half. -/
def HalfLines (ms : List LineMetric) : Prop :=
  ∀ m ∈ ms, ∃ k : ℤ, m.line = (k : ℚ) / 2

theorem mget_line_lt {ms : List LineMetric} (hs : SortedDesc ms) {i j : ℕ}
    (hij : i < j) (hj : j < ms.length) :
    (mget ms j).line < (mget ms i).line := by
  have hi : i < ms.length := lt_trans hij hj
  rw [mget, mget, List.getD_eq_getElem _ _ hj, List.getD_eq_getElem _ _ hi]
  have := List.pairwise_iff_get.mp hs ⟨i, hi⟩ ⟨j, hj⟩ hij
  simpa using this

theorem mget_halfline {ms : List LineMetric} (hh : HalfLines ms) {i : ℕ}
    (hi : i < ms.length) : ∃ k : ℤ, (mget ms i).line = (k : ℚ) / 2 := by
  rw [mget, List.getD_eq_getElem _ _ hi]
  exact hh _ (List.getElem_mem hi)

/-- Two distinct half-integer values are at least one half apart. -/
theorem half_step {x y : ℚ} (hx : ∃ k : ℤ, x = (k : ℚ) / 2)
    (hy : ∃ k : ℤ, y = (k : ℚ) / 2) (h : y < x) : y + 1/2 ≤ x := by
  obtain ⟨a, rfl⟩ := hx
  obtain ⟨b, rfl⟩ := hy
  have hba : (b : ℚ) < a := by linarith
  have hba2 : b < a := by exact_mod_cast hba
  have : b + 1 ≤ a := hba2
  have : ((b : ℚ) + 1) ≤ a := by exact_mod_cast this
  linarith

/-- The double-sharp-only adjustment applied to a measured clearance. -/
def dblAdj (m : LineMetric) : ℚ := if m.dblSharpLine then 1/2 else 0

theorem dblAdj_nonneg (m : LineMetric) : 0 ≤ dblAdj m := by
  unfold dblAdj; split <;> norm_num

theorem dblAdj_le (m : LineMetric) : dblAdj m ≤ 1/2 := by
  unfold dblAdj; split <;> norm_num

theorem requiredClearanceBase_ge (m : LineMetric) :
    5/2 ≤ Accidental.requiredClearanceBase m := by
  unfold Accidental.requiredClearanceBase; split <;> norm_num

theorem requiredClearanceBase_le (m : LineMetric) :
    Accidental.requiredClearanceBase m ≤ 3 := by
  unfold Accidental.requiredClearanceBase; split <;> norm_num

/-- On a strictly descending metrics list, collision of the pair `(i, j)`
with `i < j` is exactly: line-difference plus the lower line's double-sharp
adjustment is below the required clearance of the higher line. -/
theorem collAt_iff {ms : List LineMetric} (hs : SortedDesc ms) {i j : ℕ}
    (hij : i < j) (hj : j < ms.length) :
    collAt ms i j = true ↔
      (mget ms i).line - (mget ms j).line + dblAdj (mget ms j) <
        Accidental.requiredClearanceBase (mget ms i) := by
  have hlt : (mget ms j).line < (mget ms i).line := mget_line_lt hs hij hj
  unfold collAt Accidental.checkCollision
  have hc : ¬ ((0:ℚ) < (mget ms j).line - (mget ms i).line) := by linarith
  rw [if_neg hc]
  simp only [decide_eq_true_eq, absQ_eq_abs]
  unfold Accidental.requiredClearanceBase dblAdj
  split_ifs with hd hf hf <;>
    rw [abs_of_neg (by linarith)] <;>
    constructor <;> intro h5 <;> linarith

/-- Non-collision composes along a descending chain: if `i < k < j` and
neither `(i, k)` nor `(k, j)` collide, then `(i, j)` does not collide. -/
theorem chain_not_coll {ms : List LineMetric} (hs : SortedDesc ms) {i k j : ℕ}
    (hik : i < k) (hkj : k < j) (hj : j < ms.length)
    (h1 : collAt ms i k = false) (h2 : collAt ms k j = false) :
    collAt ms i j = false := by
  have hk : k < ms.length := lt_trans hkj hj
  rw [← Bool.not_eq_true, collAt_iff hs hik hk] at h1
  rw [← Bool.not_eq_true, collAt_iff hs hkj hj] at h2
  rw [← Bool.not_eq_true, collAt_iff hs (lt_trans hik hkj) hj]
  push_neg at h1 h2 ⊢
  have hb1 := requiredClearanceBase_ge (mget ms k)
  have hb2 := requiredClearanceBase_le (mget ms i)
  have ha1 := dblAdj_nonneg (mget ms j)
  have ha2 := dblAdj_le (mget ms k)
  linarith

/-- Non-collision of a group boundary `(b, b+1)` propagates to every pair
that straddles it (`i ≤ b < b+1 ≤ j`), given strict descent at half-line
granularity. -/
theorem cross_not_coll {ms : List LineMetric} (hs : SortedDesc ms)
    (hh : HalfLines ms) {i b j : ℕ} (hib : i ≤ b) (hbj : b + 1 ≤ j)
    (hj : j < ms.length) (hb : collAt ms b (b + 1) = false) :
    collAt ms i j = false := by
  have hb1 : b + 1 < ms.length := lt_of_le_of_lt hbj hj
  have hblen : b < ms.length := by omega
  have hilen : i < ms.length := by omega
  rw [← Bool.not_eq_true, collAt_iff hs (Nat.lt_succ_self b) hb1] at hb
  push_neg at hb
  rw [← Bool.not_eq_true, collAt_iff hs (by omega) hj]
  push_neg
  have hbase_b := requiredClearanceBase_ge (mget ms b)
  have hbase_i := requiredClearanceBase_le (mget ms i)
  have hadj_b1 := dblAdj_le (mget ms (b + 1))
  have hadj_j := dblAdj_nonneg (mget ms j)
  -- the two optional half-line steps around the boundary
  rcases Nat.eq_or_lt_of_le hib with rfl | hilt
  · rcases Nat.eq_or_lt_of_le hbj with rfl | hjlt
    · exact hb
    · have hstep : (mget ms j).line + 1/2 ≤ (mget ms (i + 1)).line :=
        half_step (mget_halfline hh (by omega)) (mget_halfline hh hj)
          (mget_line_lt hs hjlt hj)
      linarith
  · rcases Nat.eq_or_lt_of_le hbj with rfl | hjlt
    · have hstep : (mget ms b).line + 1/2 ≤ (mget ms i).line :=
        half_step (mget_halfline hh hilen) (mget_halfline hh hblen)
          (mget_line_lt hs hilt hblen)
      linarith
    · have hstep1 : (mget ms b).line + 1/2 ≤ (mget ms i).line :=
        half_step (mget_halfline hh hilen) (mget_halfline hh hblen)
          (mget_line_lt hs hilt hblen)
      have hstep2 : (mget ms j).line + 1/2 ≤ (mget ms (b + 1)).line :=
        half_step (mget_halfline hh hb1) (mget_halfline hh hj)
          (mget_line_lt hs hjlt hj)
      linarith

theorem notColl_eq_true {ms : List LineMetric} {s a b : ℕ} :
    notColl ms s a b = true ↔ collAt ms (s + a) (s + b) = false := by
  unfold notColl
  cases collAt ms (s + a) (s + b) <;> simp

theorem rangeMap_getD {L p k : ℕ} (hk : k < L) :
    (((List.range L).map fun t => t % p + 1).getD k 0) = k % p + 1 := by
  rw [List.getD_eq_getElem _ _ (by simpa using hk)]
  rw [List.getElem_map, List.getElem_range]

/-- If no pair exactly `p` apart collides, no pair any positive multiple of
`p` apart collides either (by chaining non-collisions). -/
theorem no_coll_mul {ms : List LineMetric} (hs : SortedDesc ms) {p : ℕ} (hp : 1 ≤ p)
    (hnp : ∀ x, x + p < ms.length → collAt ms x (x + p) = false) :
    ∀ k x, 1 ≤ k → x + p * k < ms.length → collAt ms x (x + p * k) = false := by
  intro k
  induction k with
  | zero => intro x h0 _; omega
  | succ k ih =>
    intro x _ hlt
    rcases Nat.eq_zero_or_pos k with rfl | hk
    · simpa using hnp x (by simpa using hlt)
    · rw [Nat.mul_succ] at hlt ⊢
      rw [← Nat.add_assoc] at hlt ⊢
      have hpk : 0 < p * k := Nat.mul_pos (by omega) hk
      have h1 := ih x hk (by omega)
      have h2 := hnp (x + p * k) (by omega)
      exact chain_not_coll hs (by omega) (by omega) hlt h1 h2

/-- Within one conflict group, colliding pairs receive distinct columns.
The group occupies indices `[s, s + m]`; `t < u ≤ m` are positions within
the group. -/
theorem groupColumns_sep {ms : List LineMetric} (hs : SortedDesc ms) (hh : HalfLines ms)
    {s m t u : ℕ} (htu : t < u) (hum : u ≤ m) (hel : s + m < ms.length)
    (hcol : collAt ms (s + t) (s + u) = true) :
    (groupColumns ms s (s + m)).getD t 0 ≠ (groupColumns ms s (s + m)).getD u 0 := by
  simp only [groupColumns, Nat.add_sub_cancel_left]
  by_cases h7 : 7 ≤ m + 1
  · -- ascending-parallel pattern for groups of seven or more
    rw [if_pos h7]
    intro heq
    have hp2 : 2 ≤ patternSearch ms 2 := patternSearch_ge ms 2
    have hnp := (hasCollisionApart_eq_false_iff ms _).mp (patternSearch_spec ms 2)
    rw [rangeMap_getD (by omega), rangeMap_getD (by omega)] at heq
    have hmod : t % patternSearch ms 2 = u % patternSearch ms 2 := Nat.add_right_cancel heq
    obtain ⟨k, hk⟩ := (Nat.modEq_iff_dvd' (le_of_lt htu)).mp hmod
    have hk1 : 1 ≤ k := by
      rcases Nat.eq_zero_or_pos k with rfl | h
      · simp at hk; omega
      · exact h
    have hb : (s + t) + patternSearch ms 2 * k < ms.length := by rw [← hk]; omega
    have hcf := no_coll_mul hs (by omega) hnp k (s + t) hk1 hb
    have hidx : (s + t) + patternSearch ms 2 * k = s + u := by rw [← hk]; omega
    rw [hidx, hcol] at hcf
    simp at hcf
  · -- canonical table rows for groups of at most six
    rw [if_neg h7]
    have hm5 : m ≤ 5 := by omega
    interval_cases m
    · omega
    · -- group length 2: rows [1, 2]
      norm_num [computeEndCase, Nat.add_sub_cancel_left]
      by_cases hcse : collAt ms s (s + 1) = true <;>
        simp only [hcse] <;>
        interval_cases u <;> interval_cases t <;>
        simp_all [Tables.accidentalColumnsTable]
    · -- group length 3
      norm_num [computeEndCase, Nat.add_sub_cancel_left]
      by_cases hcse : collAt ms s (s + 2) = true <;>
        simp only [hcse] <;>
        split_ifs <;>
        interval_cases u <;> interval_cases t <;>
        simp_all [Tables.accidentalColumnsTable]
    · -- group length 4
      norm_num [computeEndCase, Nat.add_sub_cancel_left]
      by_cases hcse : collAt ms s (s + 3) = true <;>
        simp only [hcse] <;>
        split_ifs <;>
        interval_cases u <;> interval_cases t <;>
        simp_all [Tables.accidentalColumnsTable, notColl]
    · -- group length 5
      norm_num [computeEndCase, Nat.add_sub_cancel_left]
      by_cases hcse : collAt ms s (s + 4) = true <;>
        simp only [hcse] <;>
        split_ifs <;>
        interval_cases u <;> interval_cases t <;>
        simp_all [Tables.accidentalColumnsTable, notColl]
    · -- group length 6: the very-spaced-out row needs chained non-collisions
      norm_num [computeEndCase, Nat.add_sub_cancel_left]
      by_cases hV : notColl ms s 0 2 = true ∧ notColl ms s 2 4 = true ∧
          notColl ms s 1 3 = true ∧ notColl ms s 3 5 = true
      · have f02 : collAt ms s (s + 2) = false := by
          simpa using notColl_eq_true.mp hV.1
        have f24 : collAt ms (s + 2) (s + 4) = false := notColl_eq_true.mp hV.2.1
        have f13 : collAt ms (s + 1) (s + 3) = false := notColl_eq_true.mp hV.2.2.1
        have f35 : collAt ms (s + 3) (s + 5) = false := notColl_eq_true.mp hV.2.2.2
        have hch04 : collAt ms s (s + 4) = false :=
          chain_not_coll hs (by omega) (by omega) (by omega) f02 f24
        have hch15 : collAt ms (s + 1) (s + 5) = false :=
          chain_not_coll hs (by omega) (by omega) (by omega) f13 f35
        rw [if_pos hV]
        interval_cases u <;> interval_cases t <;>
          simp_all [Tables.accidentalColumnsTable]
      · rw [if_neg hV]
        by_cases hS : notColl ms s 0 3 = true ∧ notColl ms s 1 4 = true ∧ notColl ms s 2 5 = true
        · have f03 : collAt ms (s + 0) (s + 3) = false := notColl_eq_true.mp hS.1
          have f14 : collAt ms (s + 1) (s + 4) = false := notColl_eq_true.mp hS.2.1
          have f25 : collAt ms (s + 2) (s + 5) = false := notColl_eq_true.mp hS.2.2
          rw [if_pos hS]
          interval_cases u <;> interval_cases t <;>
            first
              | decide
              | exact absurd (f03.symm.trans hcol) (by simp)
              | exact absurd (f14.symm.trans hcol) (by simp)
              | exact absurd (f25.symm.trans hcol) (by simp)
        · rw [if_neg hS]
          by_cases hcse : collAt ms s (s + 5) = true
          · rw [if_pos hcse]
            interval_cases u <;> interval_cases t <;> decide
          · have hcse0 : collAt ms (s + 0) (s + 5) = false := by
              simp only [Nat.add_zero]
              exact Bool.eq_false_iff.mpr hcse
            rw [if_neg hcse]
            interval_cases u <;> interval_cases t <;>
              first
                | decide
                | exact absurd (hcse0.symm.trans hcol) (by simp)

theorem groupColumns_length (ms : List LineMetric) (s m : ℕ) :
    (groupColumns ms s (s + m)).length = m + 1 := by
  simp only [groupColumns, Nat.add_sub_cancel_left]
  by_cases h7 : 7 ≤ m + 1
  · rw [if_pos h7]; simp
  · rw [if_neg h7]
    have hm5 : m ≤ 5 := by omega
    interval_cases m <;>
      norm_num [computeEndCase, Nat.add_sub_cancel_left] <;>
      split_ifs <;>
      simp [Tables.accidentalColumnsTable]

theorem colsFrom_length (ms : List LineMetric) (s : ℕ) :
    (colsFrom ms s).length = ms.length - s := by
  have H : ∀ n s, ms.length - s ≤ n → (colsFrom ms s).length = ms.length - s := by
    intro n
    induction n with
    | zero =>
      intro s hn
      rw [colsFrom]
      split
      next h => omega
      next => simp; omega
    | succ n ih =>
      intro s hn
      rw [colsFrom]
      split
      next h =>
        obtain ⟨m, hm⟩ : ∃ m, runEnd ms s = s + m :=
          ⟨runEnd ms s - s, by have := runEnd_ge ms s; omega⟩
        have hel : s + m < ms.length := hm ▸ runEnd_lt_length ms s h
        rw [hm, List.length_append, groupColumns_length, ih (s + m + 1) (by omega)]
        omega
      next h => simp; omega
  exact H (ms.length - s) s (le_refl _)

/-- Any two colliding metrics at or past position `s` get distinct columns
from the group loop starting at `s`. -/
theorem colsFrom_sep {ms : List LineMetric} (hs : SortedDesc ms) (hh : HalfLines ms) :
    ∀ s i j, s ≤ i → i < j → j < ms.length → collAt ms i j = true →
      (colsFrom ms s).getD (i - s) 0 ≠ (colsFrom ms s).getD (j - s) 0 := by
  have H : ∀ n s, ms.length - s ≤ n → ∀ i j, s ≤ i → i < j → j < ms.length →
      collAt ms i j = true →
      (colsFrom ms s).getD (i - s) 0 ≠ (colsFrom ms s).getD (j - s) 0 := by
    intro n
    induction n with
    | zero => intro s hn i j hsi hij hj _; omega
    | succ n ih =>
      intro s hn i j hsi hij hj hcol
      have hsl : s < ms.length := by omega
      rw [colsFrom, dif_pos hsl]
      obtain ⟨m, hm⟩ : ∃ m, runEnd ms s = s + m :=
        ⟨runEnd ms s - s, by have := runEnd_ge ms s; omega⟩
      have hel : s + m < ms.length := hm ▸ runEnd_lt_length ms s hsl
      have hglen : (groupColumns ms s (s + m)).length = m + 1 := groupColumns_length ms s m
      rw [hm]
      by_cases hje : j ≤ s + m
      · -- both positions inside the group starting at s
        rw [List.getD_append _ _ _ _ (by omega), List.getD_append _ _ _ _ (by omega)]
        obtain ⟨t, rfl⟩ : ∃ t, i = s + t := ⟨i - s, by omega⟩
        obtain ⟨u, rfl⟩ : ∃ u, j = s + u := ⟨j - s, by omega⟩
        simp only [Nat.add_sub_cancel_left]
        exact groupColumns_sep hs hh (by omega) (by omega) hel hcol
      · by_cases hie : i ≤ s + m
        · -- the pair straddles the group boundary, so it cannot collide
          exfalso
          have hstop := runEnd_stop ms s
          rw [hm] at hstop
          have hb : collAt ms (s + m) (s + m + 1) = false := by
            rcases Bool.eq_false_or_eq_true (collAt ms (s + m) (s + m + 1)) with h | h
            · exact absurd ⟨by omega, h⟩ hstop
            · exact h
          have := cross_not_coll hs hh hie (by omega) hj hb
          rw [hcol] at this
          simp at this
        · -- both past the group: recurse on the next group
          rw [List.getD_append_right _ _ _ _ (by omega),
            List.getD_append_right _ _ _ _ (by omega), hglen]
          have hieq : i - s - (m + 1) = i - (s + m + 1) := by omega
          have hjeq : j - s - (m + 1) = j - (s + m + 1) := by omega
          rw [hieq, hjeq]
          exact ih (s + m + 1) (by omega) i j (by omega) hij hj hcol
  exact fun s i j hsi hij hj hcol => H (ms.length - s) s (le_refl _) i j hsi hij hj hcol

theorem table_getD_pos (L : ℕ) (c : EndCase) (k : ℕ)
    (hk : k < (Tables.accidentalColumnsTable L c).length) :
    1 ≤ (Tables.accidentalColumnsTable L c).getD k 0 := by
  revert hk
  unfold Tables.accidentalColumnsTable
  split <;> intro hk <;>
    first
      | (exfalso; revert hk; simp; done)
      | (simp only [List.length_cons, List.length_nil] at hk
         interval_cases k <;> decide)

theorem groupColumns_pos (ms : List LineMetric) (s m k : ℕ) (hk : k < m + 1) :
    1 ≤ (groupColumns ms s (s + m)).getD k 0 := by
  have hL := groupColumns_length ms s m
  simp only [groupColumns, Nat.add_sub_cancel_left] at hL ⊢
  by_cases h7 : 7 ≤ m + 1
  · rw [if_pos h7]
    rw [rangeMap_getD hk]
    omega
  · rw [if_neg h7]
    rw [if_neg h7] at hL
    exact table_getD_pos _ _ _ (by omega)

/-- Every column emitted by the group loop is at least 1 (columns are
1-based). -/
theorem colsFrom_pos (ms : List LineMetric) :
    ∀ s k, k < (colsFrom ms s).length → 1 ≤ (colsFrom ms s).getD k 0 := by
  have H : ∀ n s, ms.length - s ≤ n → ∀ k, k < (colsFrom ms s).length →
      1 ≤ (colsFrom ms s).getD k 0 := by
    intro n
    induction n with
    | zero =>
      intro s hn k hk
      rw [colsFrom_length] at hk
      omega
    | succ n ih =>
      intro s hn k hk
      have hsl : s < ms.length := by rw [colsFrom_length] at hk; omega
      rw [colsFrom, dif_pos hsl] at hk ⊢
      obtain ⟨m, hm⟩ : ∃ m, runEnd ms s = s + m :=
        ⟨runEnd ms s - s, by have := runEnd_ge ms s; omega⟩
      rw [hm] at hk ⊢
      have hglen : (groupColumns ms s (s + m)).length = m + 1 := groupColumns_length ms s m
      by_cases hkin : k < m + 1
      · rw [List.getD_append _ _ _ _ (by omega)]
        exact groupColumns_pos ms s m k hkin
      · rw [List.getD_append_right _ _ _ _ (by omega), hglen]
        rw [List.length_append, hglen] at hk
        exact ih (s + m + 1) (by omega) (k - (m + 1)) (by omega)
  exact fun s k hk => H (ms.length - s) s (le_refl _) k hk

/-! ### From accidentals to the metrics list

`Accidental.format` (lines 83-183) collects one entry per accidental with
its stave line (half-line granularity), type and width, sorts the entries
by descending line, and buckets equal lines into one
`StaveLineAccidentalLayoutMetrics` entry. -/

/-- One entry of `accidentalLinePositionsAndSpaceNeeds`: the accidental's
resolved stave line together with the data of the accidental itself that
the layout reads (its `type` and its width). -/
structure AccLinePos where
  line : ℚ
  accType : String
  width : ℚ
  deriving DecidableEq, Repr

/-- Fold one accidental into the metrics entry of its line (lines 160-182):
the flat-only and double-sharp-only flags stay set only while every
accidental on the line is of the matching type; the count and combined
width grow. -/
def absorbAcc (accidentalSpacing : ℚ) (m : LineMetric) (a : AccLinePos) : LineMetric :=
  { m with
    flatLine := m.flatLine && (a.accType == "b" || a.accType == "bb")
    dblSharpLine := m.dblSharpLine && (a.accType == "##")
    numAcc := m.numAcc + 1
    width := m.width + a.width + accidentalSpacing }

/-- A fresh metrics entry for a new line (lines 146-155) with the first
accidental already folded in. -/
def newLineMetric (accidentalSpacing : ℚ) (a : AccLinePos) : LineMetric :=
  absorbAcc accidentalSpacing ⟨a.line, true, true, 0, 0, 0⟩ a

/-- The bucketing loop (lines 139-183) over the sorted entries: a new
metrics entry whenever the line changes, otherwise fold into the current
one. -/
def buildGo (accidentalSpacing : ℚ) (cur : LineMetric) :
    List AccLinePos → List LineMetric
  | [] => [cur]
  | a :: rest =>
    if a.line = cur.line then buildGo accidentalSpacing (absorbAcc accidentalSpacing cur a) rest
    else cur :: buildGo accidentalSpacing (newLineMetric accidentalSpacing a) rest

/-- `staveLineAccidentalLayoutMetrics` built from the sorted entry list. -/
def buildLineMetrics (accidentalSpacing : ℚ) : List AccLinePos → List LineMetric
  | [] => []
  | a :: rest => buildGo accidentalSpacing (newLineMetric accidentalSpacing a) rest

/-- The sort of line 129: `sort((a, b) => b.line - a.line)`, i.e. by
descending line. -/
def sortByLineDesc (l : List AccLinePos) : List AccLinePos :=
  l.mergeSort fun a b => decide (b.line ≤ a.line)

/-- The column-assignment portion of `Accidental.format`: sort the
accidental entries by descending line, bucket them into per-line metrics,
and assign a column to every metrics entry. -/
def Accidental.formatColumns (accidentalSpacing : ℚ) (accs : List AccLinePos) :
    List LineMetric × List ℕ :=
  let ms := buildLineMetrics accidentalSpacing (sortByLineDesc accs)
  (ms, assignColumns ms)

theorem absorbAcc_line (sp : ℚ) (m : LineMetric) (a : AccLinePos) :
    (absorbAcc sp m a).line = m.line := rfl

theorem newLineMetric_line (sp : ℚ) (a : AccLinePos) :
    (newLineMetric sp a).line = a.line := rfl

theorem sortByLineDesc_sorted (l : List AccLinePos) :
    (sortByLineDesc l).Pairwise fun a b => b.line ≤ a.line := by
  have h : (List.mergeSort l fun a b : AccLinePos => decide (b.line ≤ a.line)).Pairwise
      (fun a b : AccLinePos => decide (b.line ≤ a.line) = true) :=
    List.sorted_mergeSort
      (fun a b c hab hbc => by
        rw [decide_eq_true_eq] at *
        exact le_trans hbc hab)
      (fun a b => by
        rcases le_total b.line a.line with h | h <;> simp [h])
      l
  exact h.imp fun hab => by rwa [decide_eq_true_eq] at hab

theorem buildGo_line_mem (sp : ℚ) :
    ∀ (rest : List AccLinePos) (cur x : LineMetric), x ∈ buildGo sp cur rest →
      x.line = cur.line ∨ ∃ a ∈ rest, x.line = a.line := by
  intro rest
  induction rest with
  | nil =>
    intro cur x hx
    simp only [buildGo, List.mem_singleton] at hx
    exact Or.inl (by rw [hx])
  | cons a rest ih =>
    intro cur x hx
    simp only [buildGo] at hx
    by_cases h : a.line = cur.line
    · rw [if_pos h] at hx
      rcases ih _ x hx with h1 | ⟨b, hb, h2⟩
      · exact Or.inl (by rwa [absorbAcc_line] at h1)
      · exact Or.inr ⟨b, List.mem_cons_of_mem a hb, h2⟩
    · rw [if_neg h] at hx
      rcases List.mem_cons.mp hx with rfl | hx2
      · exact Or.inl rfl
      · rcases ih _ x hx2 with h1 | ⟨b, hb, h2⟩
        · exact Or.inr ⟨a, List.mem_cons_self a rest, by rwa [newLineMetric_line] at h1⟩
        · exact Or.inr ⟨b, List.mem_cons_of_mem a hb, h2⟩

theorem buildGo_sorted (sp : ℚ) :
    ∀ (rest : List AccLinePos) (cur : LineMetric),
      (∀ a ∈ rest, a.line ≤ cur.line) →
      rest.Pairwise (fun a b => b.line ≤ a.line) →
      (buildGo sp cur rest).Pairwise fun a b => b.line < a.line := by
  intro rest
  induction rest with
  | nil =>
    intro cur _ _
    simp [buildGo]
  | cons a rest ih =>
    intro cur hall hp
    rcases List.pairwise_cons.mp hp with ⟨hrest_le, hrest_p⟩
    simp only [buildGo]
    by_cases h : a.line = cur.line
    · rw [if_pos h]
      apply ih (absorbAcc sp cur a)
      · intro b hb
        rw [absorbAcc_line]
        exact le_trans (hrest_le b hb) (le_of_eq h)
      · exact hrest_p
    · rw [if_neg h]
      apply List.Pairwise.cons
      · intro x hx
        have hax : a.line < cur.line :=
          lt_of_le_of_ne (hall a (List.mem_cons_self a rest)) h
        rcases buildGo_line_mem sp rest (newLineMetric sp a) x hx with h1 | ⟨b, hb, h2⟩
        · rw [newLineMetric_line] at h1
          rw [h1]; exact hax
        · rw [h2]; exact lt_of_le_of_lt (hrest_le b hb) hax
      · apply ih
        · intro b hb
          rw [newLineMetric_line]
          exact hrest_le b hb
        · exact hrest_p

theorem buildLineMetrics_sorted (sp : ℚ) (l : List AccLinePos)
    (hl : l.Pairwise fun a b => b.line ≤ a.line) :
    SortedDesc (buildLineMetrics sp l) := by
  cases l with
  | nil => simp [buildLineMetrics, SortedDesc]
  | cons a rest =>
    rcases List.pairwise_cons.mp hl with ⟨hle, hp⟩
    exact buildGo_sorted sp rest _ (fun b hb => by rw [newLineMetric_line]; exact hle b hb) hp

theorem buildLineMetrics_lines (sp : ℚ) (l : List AccLinePos) :
    ∀ x ∈ buildLineMetrics sp l, ∃ a ∈ l, x.line = a.line := by
  cases l with
  | nil => simp [buildLineMetrics]
  | cons a rest =>
    intro x hx
    rcases buildGo_line_mem sp rest _ x hx with h1 | ⟨b, hb, h2⟩
    · exact ⟨a, List.mem_cons_self a rest, by rwa [newLineMetric_line] at h1⟩
    · exact ⟨b, List.mem_cons_of_mem a hb, h2⟩

/-- C1: for every non-empty accidental list formatted by
`Accidental.format` (with stave lines at the half-line granularity the
source computes them), any two per-stave-line layout entries whose lines
collide according to `Accidental.checkCollision` (in the order the layout
tests them) are assigned different columns, and every assigned column is
at least 1 (1-based). -/
theorem accidental_format_colliding_lines_distinct_columns
    (accidentalSpacing : ℚ) (accs : List AccLinePos) (hne : accs ≠ [])
    (hhalf : ∀ a ∈ accs, ∃ k : ℤ, a.line = (k : ℚ) / 2)
    (i j : ℕ) (hij : i < j)
    (hj : j < (Accidental.formatColumns accidentalSpacing accs).1.length)
    (hcol : collAt (Accidental.formatColumns accidentalSpacing accs).1 i j = true) :
    1 ≤ (Accidental.formatColumns accidentalSpacing accs).2.getD i 0 ∧
    1 ≤ (Accidental.formatColumns accidentalSpacing accs).2.getD j 0 ∧
    (Accidental.formatColumns accidentalSpacing accs).2.getD i 0 ≠
      (Accidental.formatColumns accidentalSpacing accs).2.getD j 0 := by
  simp only [Accidental.formatColumns] at hj hcol ⊢
  have hsorted : SortedDesc (buildLineMetrics accidentalSpacing (sortByLineDesc accs)) :=
    buildLineMetrics_sorted _ _ (sortByLineDesc_sorted accs)
  have hhalf2 : HalfLines (buildLineMetrics accidentalSpacing (sortByLineDesc accs)) := by
    intro x hx
    obtain ⟨a, ha, hxa⟩ := buildLineMetrics_lines _ _ x hx
    have ha2 : a ∈ accs := (List.mergeSort_perm accs _).mem_iff.mp ha
    obtain ⟨k, hk⟩ := hhalf a ha2
    exact ⟨k, by rw [hxa, hk]⟩
  refine ⟨?_, ?_, ?_⟩
  · apply colsFrom_pos
    rw [colsFrom_length]
    omega
  · apply colsFrom_pos
    rw [colsFrom_length]
    omega
  · have h := colsFrom_sep hsorted hhalf2 0 i j (Nat.zero_le i) hij hj hcol
    simpa using h

/-- C1 witness: two sharps on lines 4 and 3 (one line apart, hence
colliding) receive distinct 1-based columns. -/
theorem accidental_format_colliding_lines_distinct_columns_witness :
    ([(⟨4, "#", 10⟩ : AccLinePos), ⟨3, "#", 10⟩] ≠ []) ∧
    (∀ a ∈ [(⟨4, "#", 10⟩ : AccLinePos), ⟨3, "#", 10⟩], ∃ k : ℤ, a.line = (k : ℚ) / 2) ∧
    (0 : ℕ) < 1 ∧
    1 < (Accidental.formatColumns 3 [⟨4, "#", 10⟩, ⟨3, "#", 10⟩]).1.length ∧
    collAt (Accidental.formatColumns 3 [⟨4, "#", 10⟩, ⟨3, "#", 10⟩]).1 0 1 = true ∧
    (Accidental.formatColumns 3 [⟨4, "#", 10⟩, ⟨3, "#", 10⟩]).2.getD 0 0 ≠
      (Accidental.formatColumns 3 [⟨4, "#", 10⟩, ⟨3, "#", 10⟩]).2.getD 1 0 := by
  have hne : ([(⟨4, "#", 10⟩ : AccLinePos), ⟨3, "#", 10⟩] ≠ []) := by simp
  have hhalf : ∀ a ∈ [(⟨4, "#", 10⟩ : AccLinePos), ⟨3, "#", 10⟩],
      ∃ k : ℤ, a.line = (k : ℚ) / 2 := by
    intro a ha
    fin_cases ha
    · exact ⟨8, by norm_num⟩
    · exact ⟨6, by norm_num⟩
  have hso : sortByLineDesc [(⟨4, "#", 10⟩ : AccLinePos), ⟨3, "#", 10⟩] =
      [⟨4, "#", 10⟩, ⟨3, "#", 10⟩] := by
    apply List.mergeSort_of_sorted
    norm_num [List.pairwise_cons]
  have hbuild : buildLineMetrics 3 [(⟨4, "#", 10⟩ : AccLinePos), ⟨3, "#", 10⟩] =
      [⟨4, false, false, 1, 13, 0⟩, ⟨3, false, false, 1, 13, 0⟩] := by
    norm_num [buildLineMetrics, buildGo, newLineMetric, absorbAcc]
    decide
  have hfst : (Accidental.formatColumns 3 [(⟨4, "#", 10⟩ : AccLinePos), ⟨3, "#", 10⟩]).1 =
      [⟨4, false, false, 1, 13, 0⟩, ⟨3, false, false, 1, 13, 0⟩] := by
    simp only [Accidental.formatColumns, hso, hbuild]
  have hlen : 1 < (Accidental.formatColumns 3 [(⟨4, "#", 10⟩ : AccLinePos), ⟨3, "#", 10⟩]).1.length := by
    rw [hfst]; norm_num
  have hcol : collAt (Accidental.formatColumns 3 [(⟨4, "#", 10⟩ : AccLinePos), ⟨3, "#", 10⟩]).1 0 1 = true := by
    rw [hfst]
    norm_num [collAt, mget, Accidental.checkCollision, absQ]
  exact ⟨hne, hhalf, Nat.zero_lt_one, hlen, hcol,
    (accidental_format_colliding_lines_distinct_columns 3 _ hne hhalf 0 1 Nat.zero_lt_one
      hlen hcol).2.2⟩

/-! ## Formatter (src/unnamed/part_003) -/

/-- Modelled from the spec: fraction.ts is not under src/.  Exact rational
tick arithmetic: a numerator/denominator pair; `add` over the least common
multiple of the denominators (so an accumulator seeded with the common
resolution as denominator keeps that denominator for in-resolution
durations); `equals` compares cross-multiplied numerators; `value` is the
closest numeric value; static `LCM` of two positive integers. -/
structure Fraction where
  numerator : ℤ
  denominator : ℤ
  deriving DecidableEq, Repr

/-- `Fraction.LCM` of two positive integers. -/
def Fraction.LCM (a b : ℤ) : ℤ := (Int.lcm a b : ℤ)

/-- Exact addition over the least common multiple denominator. -/
def Fraction.add (f g : Fraction) : Fraction :=
  let l : ℤ := Fraction.LCM f.denominator g.denominator
  ⟨f.numerator * (l / f.denominator) + g.numerator * (l / g.denominator), l⟩

/-- The numeric value (used for measurement, never for tick equality). -/
def Fraction.value (f : Fraction) : ℚ := (f.numerator : ℚ) / (f.denominator : ℚ)

/-- Exact equality by cross-multiplication. -/
def Fraction.equals (f g : Fraction) : Bool :=
  decide (f.numerator * g.denominator = g.numerator * f.denominator)

/-- The pixel metrics of a tickable that the formatter reads
(`Tickable.getMetrics()`). -/
structure NoteMetrics where
  width : ℚ
  notePx : ℚ
  modLeftPx : ℚ
  modRightPx : ℚ
  leftDisplacedHeadPx : ℚ
  rightDisplacedHeadPx : ℚ
  deriving DecidableEq, Repr

instance : Inhabited NoteMetrics := ⟨⟨0, 0, 0, 0, 0, 0⟩⟩

/-- A tickable as the width pre-calculation sees it: its duration in ticks
and its metrics. -/
structure FTickable where
  ticks : Fraction
  metrics : NoteMetrics
  deriving DecidableEq, Repr

/-- `Voice.Mode`: STRICT requires the exact declared total; SOFT allows a
partial voice. -/
inductive VoiceMode where
  | STRICT
  | SOFT
  deriving DecidableEq, Repr

/-- Modelled from the spec: voice.ts is not under src/.  A voice is an
ordered list of tickables with a declared total-ticks target, a running
ticks-used accumulator and a mode. -/
structure Voice where
  tickables : List FTickable
  totalTicks : Fraction
  ticksUsed : Fraction
  mode : VoiceMode
  deriving DecidableEq, Repr

def Voice.getTotalTicks (v : Voice) : Fraction := v.totalTicks

def Voice.getTicksUsed (v : Voice) : Fraction := v.ticksUsed

/-- Modelled from the spec: `isComplete()` is "ticks-used equals declared
total (exact Fraction comparison)". -/
def Voice.isComplete (v : Voice) : Bool := v.ticksUsed.equals v.totalTicks

/-- Modelled from the spec: a voice's resolution multiplier is "derived
from the least common denominator of all Tickable durations". -/
def Voice.getResolutionMultiplier (v : Voice) : ℤ :=
  v.tickables.foldl (fun acc t => Fraction.LCM acc t.ticks.denominator) 1

namespace Formatter

/-- `Formatter.getResolutionMultiplier` (src/unnamed/part_003 lines
508-525): no voices is a `BadArgument`; each voice in order is checked
first against the first voice's total ticks (`TickMismatch`), then for
STRICT-mode completeness (`IncompleteVoice`); the running accumulator is
`max(acc, LCM(acc, voice multiplier))` starting from 1. -/
def getResolutionMultiplier (voices : List Voice) : Except RuntimeErr ℤ :=
  match voices with
  | [] => .error .BadArgument
  | v0 :: _ =>
    voices.foldlM (fun accumulator voice =>
      if voice.getTotalTicks.equals v0.getTotalTicks = false then
        Except.error RuntimeErr.TickMismatch
      else if voice.mode = .STRICT ∧ voice.isComplete = false then
        Except.error RuntimeErr.IncompleteVoice
      else
        Except.ok (max accumulator (Fraction.LCM accumulator voice.getResolutionMultiplier)))
      1

end Formatter

/-- A tick context as built by `createTickContexts`: its integer tick
offset and the tickables attached under their voice indices. -/
structure TickContext0 where
  tickID : ℤ
  tickables : List (ℕ × FTickable)
  deriving DecidableEq, Repr

instance : Inhabited TickContext0 := ⟨⟨0, []⟩⟩

def TickContext0.addTickable (ctx : TickContext0) (t : FTickable) (voiceIndex : ℕ) :
    TickContext0 :=
  { ctx with tickables := ctx.tickables ++ [(voiceIndex, t)] }

/-- The `AlignmentTickContexts` record.  The source keeps the same
`TickContext` objects in both `map` and `array`; here `array` is primary
and `map` is the derived lookup by tick. -/
structure AlignmentTickContexts where
  list : List ℤ
  array : List TickContext0
  resolutionMultiplier : ℤ
  deriving DecidableEq, Repr

def AlignmentTickContexts.map (c : AlignmentTickContexts) (tick : ℤ) : Option TickContext0 :=
  c.array.find? fun ctx => decide (ctx.tickID = tick)

namespace Formatter

/-- One step of the tick-context walk of one voice: look up (or create)
the context for the accumulator's current integer tick, attach the
tickable under its voice index, and advance the accumulator by the
tickable's duration. -/
def ctxStep (voiceIndex : ℕ) (acc : List TickContext0 × List ℤ × Fraction) (t : FTickable) :
    List TickContext0 × List ℤ × Fraction :=
  let arr := acc.1
  let tickList := acc.2.1
  let ticksUsed := acc.2.2
  let integerTicks := ticksUsed.numerator
  let fresh := (arr.find? fun c => decide (c.tickID = integerTicks)).isNone
  let arr2 := if fresh then arr ++ [⟨integerTicks, []⟩] else arr
  let tickList2 := if fresh then tickList ++ [integerTicks] else tickList
  let arr3 := arr2.map fun c =>
    if c.tickID = integerTicks then c.addTickable t voiceIndex else c
  (arr3, tickList2, ticksUsed.add t.ticks)

/-- `Formatter.createTickContexts` (lines 577-636): the empty voice list
short-circuits to an empty `AlignmentTickContexts` with resolution
multiplier 0 (since `getResolutionMultiplier` would raise on it); otherwise
each voice walks its tickables with a `Fraction 0 resolutionMultiplier`
accumulator, creating a context per new integer tick, and the tick list is
sorted ascending at the end. -/
def createTickContexts (voices : List Voice) : Except RuntimeErr AlignmentTickContexts :=
  if voices.length = 0 then
    .ok { list := [], array := [], resolutionMultiplier := 0 }
  else
    (getResolutionMultiplier voices).map fun resolutionMultiplier =>
      let built : List TickContext0 × List ℤ :=
        voices.enum.foldl (fun (acc : List TickContext0 × List ℤ) p =>
          let r := p.2.tickables.foldl (ctxStep p.1)
            (acc.1, acc.2, (⟨0, resolutionMultiplier⟩ : Fraction))
          (r.1, r.2.1)) ([], [])
      { list := built.2.mergeSort fun a b => decide (a ≤ b)
        array := built.1
        resolutionMultiplier := resolutionMultiplier }

end Formatter

/-- C10: `createTickContexts` applied to an empty voices list returns an
`AlignmentTickContexts` whose map, array and list are all empty and whose
`resolutionMultiplier` is 0, raising no error, even though
`getResolutionMultiplier` raises the no-voices (`BadArgument`) error on an
empty list. -/
theorem createTickContexts_empty_voices :
    Formatter.createTickContexts [] =
      .ok { list := [], array := [], resolutionMultiplier := 0 } ∧
    (∀ tick : ℤ,
      (AlignmentTickContexts.map { list := [], array := [], resolutionMultiplier := 0 } tick)
        = none) ∧
    Formatter.getResolutionMultiplier [] = .error .BadArgument := by
  refine ⟨by simp [Formatter.createTickContexts], fun tick => rfl, rfl⟩

/-- C6 counterexample: a first voice in STRICT mode with 3 of its declared
4 ticks used, next to a second voice with a different total.  The
mismatched-total condition of the claim holds, yet the error raised is
`IncompleteVoice`, not `TickMismatch`: the reduction checks each voice in
order, and within a voice the mismatch test runs before the completeness
test, so the claim's two unconditional "whenever" clauses cannot both
hold. -/
theorem getResolutionMultiplier_claim_counterexample :
    (Voice.getTotalTicks ⟨[], ⟨3, 1⟩, ⟨3, 1⟩, .SOFT⟩).equals
        (Voice.getTotalTicks ⟨[], ⟨4, 1⟩, ⟨3, 1⟩, .STRICT⟩) = false ∧
    Formatter.getResolutionMultiplier
        [⟨[], ⟨4, 1⟩, ⟨3, 1⟩, .STRICT⟩, ⟨[], ⟨3, 1⟩, ⟨3, 1⟩, .SOFT⟩] =
      .error .IncompleteVoice := by
  refine ⟨by decide, by rfl⟩

/-- The first violation encountered by the scan of
`getResolutionMultiplier`: voices in order, and within a voice the
total-ticks mismatch against `total0` is checked before STRICT-mode
completeness. -/
def scanViolation (total0 : Fraction) : List Voice → Option RuntimeErr
  | [] => none
  | v :: rest =>
    if v.getTotalTicks.equals total0 = false then some .TickMismatch
    else if v.mode = .STRICT ∧ v.isComplete = false then some .IncompleteVoice
    else scanViolation total0 rest

/-- The accumulator value `getResolutionMultiplier` returns when no check
fails. -/
def resolutionFold (voices : List Voice) : ℤ :=
  voices.foldl (fun acc v => max acc (Fraction.LCM acc v.getResolutionMultiplier)) 1

theorem getResolutionMultiplier_foldlM_char (total0 : Fraction) :
    ∀ (l : List Voice) (acc : ℤ),
      (l.foldlM (fun accumulator voice =>
        if voice.getTotalTicks.equals total0 = false then
          Except.error RuntimeErr.TickMismatch
        else if voice.mode = .STRICT ∧ voice.isComplete = false then
          Except.error RuntimeErr.IncompleteVoice
        else
          Except.ok (max accumulator
            (Fraction.LCM accumulator voice.getResolutionMultiplier))) acc) =
      (match scanViolation total0 l with
        | some e => Except.error e
        | none => Except.ok (l.foldl
            (fun a v => max a (Fraction.LCM a v.getResolutionMultiplier)) acc)) := by
  intro l
  induction l with
  | nil => intro acc; rfl
  | cons v rest ih =>
    intro acc
    rw [List.foldlM_cons, scanViolation]
    by_cases h1 : v.getTotalTicks.equals total0 = false
    · rw [if_pos h1, if_pos h1]
      rfl
    · rw [if_neg h1, if_neg h1]
      by_cases h2 : v.mode = .STRICT ∧ v.isComplete = false
      · rw [if_pos h2, if_pos h2]
        rfl
      · rw [if_neg h2, if_neg h2]
        rw [show (Except.ok (ε := RuntimeErr) (max acc
            (Fraction.LCM acc v.getResolutionMultiplier)) >>= fun acc2 =>
            rest.foldlM _ acc2) = rest.foldlM _ (max acc
            (Fraction.LCM acc v.getResolutionMultiplier)) from rfl]
        rw [ih]
        rfl

/-- C6 (amended): `getResolutionMultiplier` raises exactly the first
violation in voice order, checking within each voice the total-ticks
mismatch against the first voice's total before STRICT-mode completeness;
so a tick mismatch raises `TickMismatch` unless an earlier-scanned STRICT
incomplete voice raises `IncompleteVoice` first (and symmetrically), and
with no violation it returns the max/LCM accumulator over the voices.  In
particular a STRICT voice missing one quarter note from a declared 4/4
total raises the incomplete-voice condition. -/
theorem getResolutionMultiplier_first_violation (v0 : Voice) (rest : List Voice) :
    Formatter.getResolutionMultiplier (v0 :: rest) =
      (match scanViolation v0.getTotalTicks (v0 :: rest) with
        | some e => Except.error e
        | none => Except.ok (resolutionFold (v0 :: rest))) := by
  unfold Formatter.getResolutionMultiplier resolutionFold
  exact getResolutionMultiplier_foldlM_char v0.getTotalTicks (v0 :: rest) 1

/-- C6 witness: a STRICT-mode 4/4 voice (declared total 16384 ticks)
holding three quarter notes (4096 ticks each, 12288 used) raises
`IncompleteVoice`, also when `getResolutionMultiplier` is reached through
`format`'s call to `createTickContexts`. -/
theorem getResolutionMultiplier_first_violation_witness :
    Formatter.getResolutionMultiplier
        [⟨[⟨⟨4096, 1⟩, ⟨16, 16, 0, 0, 0, 0⟩⟩, ⟨⟨4096, 1⟩, ⟨16, 16, 0, 0, 0, 0⟩⟩,
           ⟨⟨4096, 1⟩, ⟨16, 16, 0, 0, 0, 0⟩⟩], ⟨16384, 1⟩, ⟨12288, 1⟩, .STRICT⟩] =
      .error .IncompleteVoice ∧
    Formatter.createTickContexts
        [⟨[⟨⟨4096, 1⟩, ⟨16, 16, 0, 0, 0, 0⟩⟩, ⟨⟨4096, 1⟩, ⟨16, 16, 0, 0, 0, 0⟩⟩,
           ⟨⟨4096, 1⟩, ⟨16, 16, 0, 0, 0, 0⟩⟩], ⟨16384, 1⟩, ⟨12288, 1⟩, .STRICT⟩] =
      .error .IncompleteVoice := by
  constructor
  · rw [getResolutionMultiplier_first_violation]
    rfl
  · rfl

/-- Modelled from the spec: tickcontext.ts is not under src/.  When a tick
context pre-formats its tickables, "its own width is the max required
width across its Tickables". -/
def TickContext0.preFormatWidth (ctx : TickContext0) : ℚ :=
  ctx.tickables.foldl (fun w p => max w p.2.metrics.width) 0

/-- The sum of the (pre-formatted) tick-context widths, accumulated over
the tick list as in the `preCalculateMinTotalWidth` loop. -/
def ctxWidthSum (c : AlignmentTickContexts) : ℚ :=
  (c.list.map fun tick => ((c.map tick).getD default).preFormatWidth).sum

/-- All tickables in tick-list order (the order the width/duration
accumulators of `preCalculateMinTotalWidth` see them). -/
def ctxTickables (c : AlignmentTickContexts) : List FTickable :=
  (c.list.map fun tick => ((c.map tick).getD default).tickables.map Prod.snd).join

/-- The formatter state the width computation touches: the width cache
flag (`hasMinTotalWidth`), the cached `minTotalWidth`, and the stored tick
contexts (constructor lines 357-394). -/
structure FormatterState where
  hasMinTotalWidth : Bool
  minTotalWidth : ℚ
  tickContexts : AlignmentTickContexts
  deriving DecidableEq, Repr

namespace Formatter

/-- The state after the constructor: no width computed, width 0, empty
tick contexts with resolution multiplier 0. -/
def initState : FormatterState :=
  ⟨false, 0, ⟨[], [], 0⟩⟩

/-- `Formatter.getMinTotalWidth` (lines 495-504): raises the
`NoMinTotalWidth` error unless a width computation has run; otherwise
returns the cached minimum width. -/
def getMinTotalWidth (st : FormatterState) : Except RuntimeErr ℚ :=
  if !st.hasMinTotalWidth then .error .NoMinTotalWidth
  else .ok st.minTotalWidth

/-- `Formatter.joinVoices` (lines 1050-1054): build the modifier contexts
for `voices` (their structure is read by no claim here; the observable
part is that a non-empty voice list is validated via
`getResolutionMultiplier`, whose error propagates), then invalidate the
cached minimum width. -/
def joinVoices (st : FormatterState) (voices : List Voice) :
    Except RuntimeErr FormatterState :=
  if voices.length = 0 then .ok { st with hasMinTotalWidth := false }
  else (getResolutionMultiplier voices).map fun _ => { st with hasMinTotalWidth := false }

/-- The padding estimate of `preCalculateMinTotalWidth` (lines 475-488):
the larger of the per-unaligned-context padding and the padding from the
normalized standard deviations of the tickable widths and durations. -/
noncomputable def padFormula (unalignedPadding : ℚ) (unalignedCtxCount : ℕ)
    (numContexts : ℕ) (widths durations : List ℚ) : ℝ :=
  let wsum : ℚ := widths.sum
  let dsum : ℚ := durations.sum
  let wavg : ℚ := if 0 < wsum then wsum / (widths.length : ℚ) else 1 / (widths.length : ℚ)
  let wvar : ℚ := (widths.map fun ll => (ll - wavg) ^ 2).sum
  let wpads : ℝ := Real.sqrt ((wvar / (widths.length : ℚ) : ℚ) : ℝ) / (wavg : ℝ)
  let davg : ℚ := dsum / (durations.length : ℚ)
  let dvar : ℚ := (durations.map fun ll => (ll - davg) ^ 2).sum
  let dpads : ℝ := Real.sqrt ((dvar / (durations.length : ℚ) : ℚ) : ℝ) / (davg : ℝ)
  let padmax : ℝ := max dpads wpads * (numContexts : ℝ) * (unalignedPadding : ℝ)
  let unalignedPad : ℝ := (unalignedPadding : ℝ) * (unalignedCtxCount : ℝ)
  max unalignedPad padmax

/-- `Formatter.preCalculateMinTotalWidth` (lines 430-489).
`unalignedPadding` is the `Stave.unalignedNotePadding` metric (metrics.ts
is not under src/; the spec treats it as a configuration constant).  A
cached width is returned as is; otherwise tick contexts are created, the
minimum width is the sum of the pre-formatted context widths, and the
returned estimate adds the padding formula on top. -/
noncomputable def preCalculateMinTotalWidth (unalignedPadding : ℚ)
    (st : FormatterState) (voices : List Voice) :
    Except RuntimeErr (FormatterState × ℝ) :=
  if st.hasMinTotalWidth then .ok (st, (st.minTotalWidth : ℝ))
  else
    (createTickContexts voices).map fun contexts =>
      let minTotalWidth := ctxWidthSum contexts
      let unalignedCtxCount := (contexts.list.filter fun tick =>
        ((contexts.map tick).getD default).tickables.length < voices.length).length
      let widths := (ctxTickables contexts).map fun t => t.metrics.width
      let durations := (ctxTickables contexts).map fun t => t.ticks.value
      ({ st with
          hasMinTotalWidth := true
          minTotalWidth := minTotalWidth
          tickContexts := contexts },
       (minTotalWidth : ℝ) +
         padFormula unalignedPadding unalignedCtxCount contexts.list.length widths durations)

theorem padFormula_nonneg (pad : ℚ) (hpad : 0 ≤ pad) (cnt n : ℕ) (ws ds : List ℚ) :
    0 ≤ padFormula pad cnt n ws ds := by
  unfold padFormula
  have h1 : (0:ℝ) ≤ (pad : ℝ) * (cnt : ℝ) := by
    apply mul_nonneg
    · exact_mod_cast hpad
    · positivity
  exact le_trans h1 (le_max_left _ _)

end Formatter

/-- C4 (amended): on a fresh formatter, `preCalculateMinTotalWidth` stores
as `minTotalWidth` the sum over tick contexts of each context's
pre-formatted width (the max across its tickables, not the sum over all
tickables of all voices), and its return value is at least that sum: the
padding added on top is never negative (for a nonnegative
unaligned-note-padding metric). -/
theorem preCalculateMinTotalWidth_ge_context_width_sum
    (pad : ℚ) (hpad : 0 ≤ pad) (st : FormatterState) (voices : List Voice)
    (st2 : FormatterState) (r : ℝ) (hfresh : st.hasMinTotalWidth = false)
    (h : Formatter.preCalculateMinTotalWidth pad st voices = .ok (st2, r)) :
    st2.minTotalWidth = ctxWidthSum st2.tickContexts ∧
    ((ctxWidthSum st2.tickContexts : ℚ) : ℝ) ≤ r := by
  unfold Formatter.preCalculateMinTotalWidth at h
  rw [if_neg (by rw [hfresh]; exact Bool.false_ne_true)] at h
  cases hc : Formatter.createTickContexts voices with
  | error e =>
    rw [hc] at h
    exact absurd h (by simp [Except.map])
  | ok contexts =>
    rw [hc] at h
    simp only [Except.map, Except.ok.injEq, Prod.mk.injEq] at h
    obtain ⟨hst, hr⟩ := h
    subst hst
    refine ⟨rfl, ?_⟩
    rw [← hr]
    have hp := Formatter.padFormula_nonneg pad hpad
      ((contexts.list.filter fun tick =>
        ((contexts.map tick).getD default).tickables.length < voices.length).length)
      contexts.list.length
      ((ctxTickables contexts).map fun t => t.metrics.width)
      ((ctxTickables contexts).map fun t => t.ticks.value)
    simp only
    linarith

/-- A whole note (16384 ticks at the standard resolution) of width 50. -/
def wholeNote50 : FTickable := ⟨⟨16384, 1⟩, ⟨50, 50, 0, 0, 0, 0⟩⟩

/-- Two aligned one-note voices: both notes land on tick 0 and share one
tick context. -/
def twoWholeNoteVoices : List Voice :=
  [⟨[wholeNote50], ⟨16384, 1⟩, ⟨16384, 1⟩, .SOFT⟩,
   ⟨[wholeNote50], ⟨16384, 1⟩, ⟨16384, 1⟩, .SOFT⟩]

/-- The tick contexts `createTickContexts` builds for
`twoWholeNoteVoices`: a single context at tick 0 holding both notes. -/
def twoWholeNoteCtx : AlignmentTickContexts :=
  ⟨[0], [⟨0, [(0, wholeNote50), (1, wholeNote50)]⟩], 1⟩

theorem createTickContexts_twoWholeNote :
    Formatter.createTickContexts twoWholeNoteVoices = .ok twoWholeNoteCtx := by
  have h : Formatter.createTickContexts twoWholeNoteVoices =
      .ok ⟨List.mergeSort [0] (fun a b => decide (a ≤ b)), twoWholeNoteCtx.array, 1⟩ := rfl
  rw [h, List.mergeSort_singleton]
  rfl

theorem ctxWidthSum_twoWholeNote : ctxWidthSum twoWholeNoteCtx = 50 := by
  norm_num [ctxWidthSum, twoWholeNoteCtx, AlignmentTickContexts.map,
    TickContext0.preFormatWidth, wholeNote50, List.find?, max_def]

theorem ctxTickables_twoWholeNote :
    ctxTickables twoWholeNoteCtx = [wholeNote50, wholeNote50] := rfl

theorem padFormula_twoWholeNote :
    Formatter.padFormula 10 0 1 [50, 50] [16384, 16384] = 0 := by
  norm_num [Formatter.padFormula, max_def]

/-- `preCalculateMinTotalWidth` on the two aligned one-note voices:
the single shared context contributes `max 50 50 = 50`, no context is
unaligned, and both variance estimators vanish, so the result is exactly
50. -/
theorem preCalc_twoWholeNote_eval :
    Formatter.preCalculateMinTotalWidth 10 Formatter.initState twoWholeNoteVoices =
      .ok (⟨true, 50, twoWholeNoteCtx⟩, ((50:ℚ) : ℝ)) := by
  unfold Formatter.preCalculateMinTotalWidth
  rw [show Formatter.initState.hasMinTotalWidth = false from rfl]
  rw [if_neg Bool.false_ne_true]
  rw [createTickContexts_twoWholeNote]
  simp only [Except.map, Except.ok.injEq, Prod.mk.injEq]
  refine ⟨?_, ?_⟩
  · rw [ctxWidthSum_twoWholeNote]
  · rw [ctxWidthSum_twoWholeNote]
    have hw : (ctxTickables twoWholeNoteCtx).map (fun t => t.metrics.width) = [50, 50] := rfl
    have hd : (ctxTickables twoWholeNoteCtx).map (fun t => t.ticks.value) = [16384, 16384] := by
      rw [ctxTickables_twoWholeNote]
      norm_num [wholeNote50, Fraction.value]
    have hfilter : (twoWholeNoteCtx.list.filter fun tick =>
        ((twoWholeNoteCtx.map tick).getD default).tickables.length
          < twoWholeNoteVoices.length).length = 0 := rfl
    rw [hw, hd, hfilter]
    have hlen : twoWholeNoteCtx.list.length = 1 := rfl
    rw [hlen, padFormula_twoWholeNote]
    norm_num

/-- C4 counterexample: for two voices holding one whole note of width 50
each, the two notes share a single tick context of width
`max 50 50 = 50`, all estimator paddings are zero, and
`preCalculateMinTotalWidth` returns 50 — strictly less than the claim's
bound of 100, the sum of all tickables' bare intrinsic widths. -/
theorem preCalculateMinTotalWidth_claim_counterexample :
    Formatter.preCalculateMinTotalWidth 10 Formatter.initState twoWholeNoteVoices =
      .ok (⟨true, 50, twoWholeNoteCtx⟩, ((50:ℚ) : ℝ)) ∧
    (twoWholeNoteVoices.map fun v => (v.tickables.map fun t => t.metrics.width).sum).sum
      = 100 ∧
    ((50:ℚ) : ℝ) < ((100:ℚ) : ℝ) := by
  refine ⟨preCalc_twoWholeNote_eval, ?_, by norm_num⟩
  norm_num [twoWholeNoteVoices, wholeNote50]

/-- C4 witness (for the amended bound): the two-voice example realizes the
amended inequality with padding exactly zero. -/
theorem preCalculateMinTotalWidth_ge_context_width_sum_witness :
    (0:ℚ) ≤ 10 ∧ Formatter.initState.hasMinTotalWidth = false ∧
    (⟨true, 50, twoWholeNoteCtx⟩ : FormatterState).minTotalWidth =
      ctxWidthSum (⟨true, 50, twoWholeNoteCtx⟩ : FormatterState).tickContexts ∧
    ((ctxWidthSum (⟨true, 50, twoWholeNoteCtx⟩ : FormatterState).tickContexts : ℚ) : ℝ) ≤
      ((50:ℚ) : ℝ) := by
  have h := preCalculateMinTotalWidth_ge_context_width_sum 10 (by norm_num)
    Formatter.initState twoWholeNoteVoices ⟨true, 50, twoWholeNoteCtx⟩ ((50:ℚ) : ℝ)
    rfl preCalc_twoWholeNote_eval
  exact ⟨by norm_num, rfl, h.1, h.2⟩

/-- C9: with `hasMinTotalWidth` already set, a further call to
`preCalculateMinTotalWidth` returns the stored `minTotalWidth` with the
state untouched (no tick-context rebuild) and with no padding term; after
a first (fresh) call, the stored width is the bare sum of the tick-context
widths, the second call returns exactly it, and the first call's return
value exceeded it by the (nonnegative) padding term. -/
theorem preCalculateMinTotalWidth_cached_second_call (pad : ℚ) :
    (∀ (st : FormatterState) (voices : List Voice), st.hasMinTotalWidth = true →
      Formatter.preCalculateMinTotalWidth pad st voices = .ok (st, (st.minTotalWidth : ℝ))) ∧
    (∀ (st st2 : FormatterState) (voices : List Voice) (r1 : ℝ),
      st.hasMinTotalWidth = false → 0 ≤ pad →
      Formatter.preCalculateMinTotalWidth pad st voices = .ok (st2, r1) →
      st2.minTotalWidth = ctxWidthSum st2.tickContexts ∧
      Formatter.preCalculateMinTotalWidth pad st2 voices = .ok (st2, (st2.minTotalWidth : ℝ)) ∧
      (st2.minTotalWidth : ℝ) ≤ r1) := by
  constructor
  · intro st voices hst
    unfold Formatter.preCalculateMinTotalWidth
    rw [if_pos hst]
  · intro st st2 voices r1 hst hpad h
    unfold Formatter.preCalculateMinTotalWidth at h
    rw [if_neg (by rw [hst]; exact Bool.false_ne_true)] at h
    cases hc : Formatter.createTickContexts voices with
    | error e =>
      rw [hc] at h
      exact absurd h (by simp [Except.map])
    | ok contexts =>
      rw [hc] at h
      simp only [Except.map, Except.ok.injEq, Prod.mk.injEq] at h
      obtain ⟨hst2, hr⟩ := h
      subst hst2
      refine ⟨rfl, ?_, ?_⟩
      · unfold Formatter.preCalculateMinTotalWidth
        rw [if_pos rfl]
      · rw [← hr]
        have hp := Formatter.padFormula_nonneg pad hpad
          ((contexts.list.filter fun tick =>
            ((contexts.map tick).getD default).tickables.length < voices.length).length)
          contexts.list.length
          ((ctxTickables contexts).map fun t => t.metrics.width)
          ((ctxTickables contexts).map fun t => t.ticks.value)
        simp only
        linarith

/-- C9 witness: the two-voice example; the second call returns the stored
bare width 50 with the state unchanged. -/
theorem preCalculateMinTotalWidth_cached_second_call_witness :
    Formatter.initState.hasMinTotalWidth = false ∧ (0:ℚ) ≤ 10 ∧
    Formatter.preCalculateMinTotalWidth 10 Formatter.initState twoWholeNoteVoices =
      .ok (⟨true, 50, twoWholeNoteCtx⟩, ((50:ℚ) : ℝ)) ∧
    Formatter.preCalculateMinTotalWidth 10 ⟨true, 50, twoWholeNoteCtx⟩ twoWholeNoteVoices =
      .ok (⟨true, 50, twoWholeNoteCtx⟩, ((50:ℚ) : ℝ)) := by
  refine ⟨rfl, by norm_num, preCalc_twoWholeNote_eval, ?_⟩
  have h := (preCalculateMinTotalWidth_cached_second_call 10).2 Formatter.initState
    ⟨true, 50, twoWholeNoteCtx⟩ twoWholeNoteVoices ((50:ℚ) : ℝ) rfl (by norm_num)
    preCalc_twoWholeNote_eval
  exact h.2.1

/-! ### The width-cache state machine (C7)

`getMinTotalWidth` may only be called after a width computation
(`preCalculateMinTotalWidth` or `preFormat`); `joinVoices` invalidates the
cache.  The operations are modelled as a trace replayed against the
constructor state. -/

/-- Modelled from the spec: the tick context's aggregated left metric
total is the max across its constituent tickables. -/
def TickContext0.totalLeftPx (ctx : TickContext0) : ℚ :=
  ctx.tickables.foldl
    (fun w p => max w (p.2.metrics.modLeftPx + p.2.metrics.leftDisplacedHeadPx)) 0

namespace Formatter

/-- The `x + shift` telescope of `preFormat`'s pass 1 (lines 672-706),
which the source stores as `minTotalWidth` at line 705. -/
def preFormatPass1Width (c : AlignmentTickContexts) : ℚ :=
  let r := c.list.foldl (fun (acc : ℚ × ℚ) tick =>
    let ctx := (c.map tick).getD default
    let width := ctx.preFormatWidth
    let x := acc.1 + acc.2 + ctx.totalLeftPx
    (x, width - ctx.totalLeftPx)) (0, 0)
  r.1 + r.2

end Formatter

/-- The formatter calls whose effect on the width cache the claim is
about. -/
inductive FmtOp where
  | joinVoicesOp (voices : List Voice)
  | preCalcOp (voices : List Voice)
  | preFormatOp
  deriving Repr

namespace Formatter

/-- Apply one call to the formatter state; a raised error leaves the state
as it was (the mutations of each method happen only after its checks). -/
noncomputable def applyOp (pad : ℚ) (st : FormatterState) (op : FmtOp) : FormatterState :=
  match op with
  | .joinVoicesOp vs =>
    match joinVoices st vs with
    | .ok st2 => st2
    | .error _ => st
  | .preCalcOp vs =>
    match preCalculateMinTotalWidth pad st vs with
    | .ok (st2, _) => st2
    | .error _ => st
  | .preFormatOp =>
    { st with
        hasMinTotalWidth := true
        minTotalWidth := preFormatPass1Width st.tickContexts }

noncomputable def runOps (pad : ℚ) (st : FormatterState) (ops : List FmtOp) : FormatterState :=
  ops.foldl (applyOp pad) st

end Formatter

def exceptIsOk {ε α : Type _} : Except ε α → Bool
  | .ok _ => true
  | .error _ => false

/-- Whether a call with this voice list passes the voice validation (an
empty list short-circuits `createModifierContexts`/`createTickContexts`;
otherwise `getResolutionMultiplier` must not raise). -/
def opSucceedsValidation (vs : List Voice) : Bool :=
  decide (vs.length = 0) || exceptIsOk (Formatter.getResolutionMultiplier vs)

/-- The claim's temporal condition, decided from the trace alone: has a
width computation run (and not been invalidated by a successful
`joinVoices`) since construction? -/
def widthComputedFrom (b : Bool) : List FmtOp → Bool
  | [] => b
  | .joinVoicesOp vs :: rest =>
    widthComputedFrom (if opSucceedsValidation vs then false else b) rest
  | .preCalcOp vs :: rest => widthComputedFrom (b || opSucceedsValidation vs) rest
  | .preFormatOp :: rest => widthComputedFrom true rest

def widthComputedSince (ops : List FmtOp) : Bool := widthComputedFrom false ops

theorem applyOp_flag (pad : ℚ) (st : FormatterState) (op : FmtOp) :
    (Formatter.applyOp pad st op).hasMinTotalWidth =
      (match op with
        | .joinVoicesOp vs => if opSucceedsValidation vs then false else st.hasMinTotalWidth
        | .preCalcOp vs => st.hasMinTotalWidth || opSucceedsValidation vs
        | .preFormatOp => true) := by
  cases op with
  | joinVoicesOp vs =>
    simp only [Formatter.applyOp, Formatter.joinVoices]
    by_cases hv : vs.length = 0
    · rw [if_pos hv]
      simp [opSucceedsValidation, hv]
    · rw [if_neg hv]
      cases hg : Formatter.getResolutionMultiplier vs with
      | error e => simp [Except.map, opSucceedsValidation, hv, hg, exceptIsOk]
      | ok m => simp [Except.map, opSucceedsValidation, hv, hg, exceptIsOk]
  | preCalcOp vs =>
    simp only [Formatter.applyOp]
    unfold Formatter.preCalculateMinTotalWidth
    by_cases hb : st.hasMinTotalWidth = true
    · rw [if_pos hb]
      simp [hb]
    · rw [if_neg hb]
      rw [Bool.not_eq_true] at hb
      unfold Formatter.createTickContexts
      by_cases hv : vs.length = 0
      · rw [if_pos hv]
        simp [Except.map, hb, opSucceedsValidation, hv]
      · rw [if_neg hv]
        cases hg : Formatter.getResolutionMultiplier vs with
        | error e => simp [Except.map, hb, opSucceedsValidation, hv, hg, exceptIsOk]
        | ok m => simp [Except.map, hb, opSucceedsValidation, hv, hg, exceptIsOk]
  | preFormatOp => rfl

theorem runOps_flag (pad : ℚ) :
    ∀ (ops : List FmtOp) (st : FormatterState),
      (Formatter.runOps pad st ops).hasMinTotalWidth =
        widthComputedFrom st.hasMinTotalWidth ops := by
  intro ops
  induction ops with
  | nil => intro st; rfl
  | cons op rest ih =>
    intro st
    have hstep : Formatter.runOps pad st (op :: rest) =
        Formatter.runOps pad (Formatter.applyOp pad st op) rest := rfl
    rw [hstep, ih]
    cases op with
    | joinVoicesOp vs =>
      show widthComputedFrom _ rest = widthComputedFrom _ rest
      rw [applyOp_flag]
    | preCalcOp vs =>
      show widthComputedFrom _ rest = widthComputedFrom _ rest
      rw [applyOp_flag]
    | preFormatOp =>
      show widthComputedFrom _ rest = widthComputedFrom _ rest
      rw [applyOp_flag]

/-- C7: replaying any trace of `joinVoices` / `preCalculateMinTotalWidth`
/ `preFormat` calls against a freshly constructed formatter,
`getMinTotalWidth` raises the `NoMinTotalWidth` error exactly when no
width computation has (successfully) run since construction or since the
last successful `joinVoices`, and otherwise returns the cached minimum
width without raising. -/
theorem getMinTotalWidth_before_after (pad : ℚ) (ops : List FmtOp) :
    (widthComputedSince ops = false →
      Formatter.getMinTotalWidth (Formatter.runOps pad Formatter.initState ops) =
        .error .NoMinTotalWidth) ∧
    (widthComputedSince ops = true →
      Formatter.getMinTotalWidth (Formatter.runOps pad Formatter.initState ops) =
        .ok (Formatter.runOps pad Formatter.initState ops).minTotalWidth) := by
  have hflag := runOps_flag pad ops Formatter.initState
  constructor <;> intro h
  · unfold Formatter.getMinTotalWidth
    rw [if_pos]
    rw [hflag]
    show (!widthComputedFrom false ops) = true
    rw [show widthComputedFrom false ops = widthComputedSince ops from rfl, h]
    rfl
  · unfold Formatter.getMinTotalWidth
    rw [if_neg]
    rw [hflag]
    show ¬ (!widthComputedFrom false ops) = true
    rw [show widthComputedFrom false ops = widthComputedSince ops from rfl, h]
    simp

/-- C7 witness: after `joinVoices` with no width computation the query
raises; after a `preFormat` it returns the cached width. -/
theorem getMinTotalWidth_before_after_witness :
    widthComputedSince [FmtOp.joinVoicesOp []] = false ∧
    Formatter.getMinTotalWidth (Formatter.runOps 10 Formatter.initState
      [FmtOp.joinVoicesOp []]) = .error .NoMinTotalWidth ∧
    widthComputedSince [FmtOp.preFormatOp] = true ∧
    Formatter.getMinTotalWidth (Formatter.runOps 10 Formatter.initState
      [FmtOp.preFormatOp]) =
      .ok (Formatter.runOps 10 Formatter.initState [FmtOp.preFormatOp]).minTotalWidth :=
  ⟨rfl, (getMinTotalWidth_before_after 10 [FmtOp.joinVoicesOp []]).1 rfl,
   rfl, (getMinTotalWidth_before_after 10 [FmtOp.preFormatOp]).2 rfl⟩

/-! ### SimpleFormat (C8) -/

/-- Modelled from the spec: the tick context's aggregated right metric
total is the max across its constituent tickables. -/
def TickContext0.totalRightPx (ctx : TickContext0) : ℚ :=
  ctx.tickables.foldl
    (fun w p => max w (p.2.metrics.modRightPx + p.2.metrics.rightDisplacedHeadPx)) 0

/-- `SimpleFormat` (lines 148-157): lay notes out one after the other
with a `reduce`; each note gets a fresh single-tickable tick context
whose x is the accumulator plus the context's left clearance, and the
accumulator advances by the context width, the right clearance and the
padding.  The returned list collects the assigned context x positions. -/
def Formatter.SimpleFormat (paddingBetween : ℚ) (x : ℚ) (notes : List FTickable) : List ℚ :=
  (notes.foldl (fun acc note =>
    let tickContext : TickContext0 := { tickID := 0, tickables := [(0, note)] }
    let ctxX := acc.1 + tickContext.totalLeftPx
    (acc.1 + tickContext.preFormatWidth + tickContext.totalRightPx + paddingBetween,
     acc.2 ++ [ctxX])) ((x, []) : ℚ × List ℚ)).2

/-- C8: four quarter notes with plain metrics (no modifier or displaced
head clearance, nonnegative widths) laid out by `SimpleFormat` with
`paddingBetween = 10` from `x = 0` get four x positions, each offset
from the previous one by the previous note's width plus 10, and the
positions are strictly increasing. -/
theorem simpleFormat_four_quarter_notes
    (n1 n2 n3 n4 : FTickable)
    (hclear : ∀ n ∈ [n1, n2, n3, n4],
      n.metrics.modLeftPx = 0 ∧ n.metrics.modRightPx = 0 ∧
      n.metrics.leftDisplacedHeadPx = 0 ∧ n.metrics.rightDisplacedHeadPx = 0)
    (hw : ∀ n ∈ [n1, n2, n3, n4], 0 ≤ n.metrics.width) :
    Formatter.SimpleFormat 10 0 [n1, n2, n3, n4] =
      [0, n1.metrics.width + 10,
       n1.metrics.width + 10 + (n2.metrics.width + 10),
       n1.metrics.width + 10 + (n2.metrics.width + 10) + (n3.metrics.width + 10)] ∧
    List.Chain' (fun a b => a < b) (Formatter.SimpleFormat 10 0 [n1, n2, n3, n4]) := by
  obtain ⟨l1, r1, a1, b1⟩ := hclear n1 (by simp)
  obtain ⟨l2, r2, a2, b2⟩ := hclear n2 (by simp)
  obtain ⟨l3, r3, a3, b3⟩ := hclear n3 (by simp)
  obtain ⟨l4, r4, a4, b4⟩ := hclear n4 (by simp)
  have w1 := hw n1 (by simp)
  have w2 := hw n2 (by simp)
  have w3 := hw n3 (by simp)
  have w4 := hw n4 (by simp)
  have heval : Formatter.SimpleFormat 10 0 [n1, n2, n3, n4] =
      [0, n1.metrics.width + 10,
       n1.metrics.width + 10 + (n2.metrics.width + 10),
       n1.metrics.width + 10 + (n2.metrics.width + 10) + (n3.metrics.width + 10)] := by
    simp only [Formatter.SimpleFormat, List.foldl_cons, List.foldl_nil,
      TickContext0.preFormatWidth, TickContext0.totalLeftPx, TickContext0.totalRightPx,
      l1, r1, a1, b1, l2, r2, a2, b2, l3, r3, a3, b3, l4, r4, a4, b4,
      max_eq_right w1, max_eq_right w2, max_eq_right w3, max_eq_right w4]
    norm_num
    exact ⟨by ring, by ring⟩
  refine ⟨heval, ?_⟩
  rw [heval]
  refine List.chain'_cons.mpr ⟨by linarith, List.chain'_cons.mpr ⟨by linarith,
    List.chain'_cons.mpr ⟨by linarith, List.chain'_singleton _⟩⟩⟩

/-- C8 witness: four width-16 notes land at 0, 26, 52, 78. -/
theorem simpleFormat_four_quarter_notes_witness :
    Formatter.SimpleFormat 10 0
        (List.replicate 4 ⟨⟨4096, 1⟩, ⟨16, 16, 0, 0, 0, 0⟩⟩) =
      [0, 16 + 10, 16 + 10 + (16 + 10), 16 + 10 + (16 + 10) + (16 + 10)] ∧
    List.Chain' (fun a b => a < b) (Formatter.SimpleFormat 10 0
      (List.replicate 4 ⟨⟨4096, 1⟩, ⟨16, 16, 0, 0, 0, 0⟩⟩)) :=
  simpleFormat_four_quarter_notes _ _ _ _
    (by intro n hn; simp at hn; rw [hn]; exact ⟨rfl, rfl, rfl, rfl⟩)
    (by intro n hn; simp at hn; rw [hn]; norm_num)

/-! ### evaluate (C3)

`evaluate` (lines 890-979) walks the built layout three times: a gap pass
over adjacent tick contexts (writing per-context freedom), a per-voice
space pass (writing per-note formatter metrics and accumulating duration
statistics keyed by the note's simplified duration), and a deviation pass
(sum of squared deviations of used space from the per-duration mean).
The returned cost is the square root of that sum.  The duration key
`ticks.clone().simplify().toString()` identifies reduced fractions, which
are in bijection with their rational values, so it is embedded as the
tick value in ℚ. -/

/-- Per-note `formatterMetrics` fields touched by `evaluate`. -/
structure FormatterMetrics where
  freedomLeft : ℚ
  freedomRight : ℚ
  spaceUsed : ℚ
  spaceMean : ℚ
  spaceDeviation : ℚ
  duration : ℚ
  iterations : ℕ
  deriving Repr, Inhabited

/-- A tickable as `evaluate` sees it: its x position, the static metrics
read by the space pass, its duration key, and its formatter metrics. -/
structure ENote where
  x : ℚ
  notePx : ℚ
  modLeftPx : ℚ
  modRightPx : ℚ
  leftDisplacedHeadPx : ℚ
  rightDisplacedHeadPx : ℚ
  durationKey : ℚ
  fm : FormatterMetrics
  deriving Repr, Inhabited

/-- A tick context as the gap pass sees it (in tick order). -/
structure ECtx where
  x : ℚ
  notePx : ℚ
  totalLeftPx : ℚ
  totalRightPx : ℚ
  fmFreedomLeft : ℚ
  fmFreedomRight : ℚ
  deriving Repr, Inhabited

/-- One entry of `durationStats`. -/
structure EStats where
  mean : ℚ
  count : ℚ
  total : ℚ
  deriving Repr, Inhabited

/-- The formatter fields read and written by `evaluate`. -/
structure EvalState where
  justifyWidth : ℚ
  contexts : List ECtx
  voices : List (List ENote)
  contextGapsTotal : ℚ
  contextGaps : List (ℚ × ℚ)
  durationStats : List (ℚ × EStats)
  totalCost : ℝ
  lossHistory : List ℝ

/-- `updateStats` (lines 920-930): insert a fresh entry or update count,
total and mean in place. -/
def updateStats (m : List (ℚ × EStats)) (duration : ℚ) (space : ℚ) :
    List (ℚ × EStats) :=
  match m.find? (fun p => decide (p.1 = duration)) with
  | none => m ++ [(duration, ⟨space, 1, space⟩)]
  | some _ => m.map fun p =>
      if p.1 = duration then
        let total := p.2.total + space
        let count := p.2.count + 1
        (p.1, ⟨total / count, count, total⟩)
      else p

def meanOf (m : List (ℚ × EStats)) (duration : ℚ) : ℚ :=
  match m.find? (fun p => decide (p.1 = duration)) with
  | some p => p.2.mean
  | none => 0

/-- The gap between context `i-1`'s inside right edge and context `i`'s
inside left edge (lines 903-909). -/
def gapAt (ctxs : List ECtx) (i : ℕ) : ℚ × ℚ :=
  let prev := ctxs.getD (i - 1) default
  let cur := ctxs.getD i default
  (prev.x + prev.notePx + prev.totalRightPx, cur.x - cur.totalLeftPx)

def gapVal (ctxs : List ECtx) (i : ℕ) : ℚ := (gapAt ctxs i).2 - (gapAt ctxs i).1

/-- The `contextGaps.gaps` list built by the gap pass (one entry per
index ≥ 1). -/
def contextGapList (ctxs : List ECtx) : List (ℚ × ℚ) :=
  (List.range (ctxs.length - 1)).map fun j => gapAt ctxs (j + 1)

/-- Net effect of the gap pass on the contexts' freedom fields: iteration
`i ≥ 1` sets context `i`'s left freedom and context `i-1`'s right freedom
to the gap at `i`. -/
def ctxPassA (ctxs : List ECtx) : List ECtx :=
  (List.range ctxs.length).map fun i =>
    let c := ctxs.getD i default
    let c1 :=
      if i + 1 < ctxs.length then
        { c with fmFreedomRight := gapVal ctxs (i + 1) }
      else c
    if i = 0 then c1 else { c1 with fmFreedomLeft := gapVal ctxs i }

/-- The left note edge of lines 936-937. -/
def leftNoteEdge (n : ENote) : ℚ :=
  n.x + n.notePx + n.modRightPx + n.rightDisplacedHeadPx

/-- The right note edge of the following note (line 944). -/
def rightNoteEdge (n : ENote) : ℚ := n.x - n.modLeftPx - n.leftDisplacedHeadPx

/-- The `space` assigned to note `i` of a voice (lines 939-952). -/
def spaceOf (jw : ℚ) (notes : List ENote) (i : ℕ) : ℚ :=
  if i + 1 < notes.length then
    rightNoteEdge (notes.getD (i + 1) default) - leftNoteEdge (notes.getD i default)
  else jw - leftNoteEdge (notes.getD i default)

/-- The `space.used` assigned to note `i` of a voice (lines 947 and 951). -/
def spaceUsedOf (jw : ℚ) (notes : List ENote) (i : ℕ) : ℚ :=
  if i + 1 < notes.length then
    (notes.getD (i + 1) default).x - (notes.getD i default).x
  else jw - (notes.getD i default).x

/-- The in-order list of (duration key, space used) pairs fed to
`updateStats` while walking one voice. -/
def voiceUsed (jw : ℚ) (notes : List ENote) : List (ℚ × ℚ) :=
  (List.range notes.length).map fun i =>
    ((notes.getD i default).durationKey, spaceUsedOf jw notes i)

/-- `durationStats` accumulated over one voice (in note order). -/
def statsOfVoice (jw : ℚ) (m : List (ℚ × EStats)) (notes : List ENote) :
    List (ℚ × EStats) :=
  (voiceUsed jw notes).foldl (fun m p => updateStats m p.1 p.2) m

/-- Net effect of the space pass on one voice's formatter metrics:
note `i` gets its space/freedom fields from the voice geometry (the
cross-write to the following note's left freedom included). -/
def voicePassB (jw : ℚ) (notes : List ENote) : List ENote :=
  (List.range notes.length).map fun i =>
    let n := notes.getD i default
    { n with fm := { n.fm with
        spaceUsed := spaceUsedOf jw notes i
        freedomRight := spaceOf jw notes i
        freedomLeft := if i = 0 then n.fm.freedomLeft else spaceOf jw notes (i - 1) } }

/-- The deviation pass's per-note update (lines 965-973). -/
def passCNote (stats : List (ℚ × EStats)) (n : ENote) : ENote :=
  let mean := meanOf stats n.durationKey
  { n with fm := { n.fm with
      spaceMean := mean
      duration := n.durationKey
      iterations := n.fm.iterations + 1
      spaceDeviation := n.fm.spaceUsed - mean } }

/-- `Formatter.evaluate` (lines 890-979): the three passes, the state
mutations, and the returned cost `sqrt(totalDeviation)`. -/
noncomputable def Formatter.evaluate (st : EvalState) : EvalState × ℝ :=
  let jw := st.justifyWidth
  let gaps := contextGapList st.contexts
  let contexts2 := ctxPassA st.contexts
  let gapsTotal := (gaps.map fun p => p.2 - p.1).sum
  let voices2 := st.voices.map (voicePassB jw)
  let stats := st.voices.foldl (statsOfVoice jw) []
  let totalDeviation :=
    (voices2.map fun notes =>
      (notes.map fun n => (n.fm.spaceUsed - meanOf stats n.durationKey) ^ 2).sum).sum
  let voices3 := voices2.map (List.map (passCNote stats))
  let cost := Real.sqrt ((totalDeviation : ℚ) : ℝ)
  ({ st with
      contexts := contexts2
      contextGapsTotal := gapsTotal
      contextGaps := gaps
      durationStats := stats
      voices := voices3
      totalCost := cost
      lossHistory := st.lossHistory ++ [cost] }, cost)

/-- The per-voice (duration key, space used) streams: everything the
cost depends on. -/
def voicePairs (jw : ℚ) (voices : List (List ENote)) : List (List (ℚ × ℚ)) :=
  voices.map (voiceUsed jw)

def statsOfPairs (pss : List (List (ℚ × ℚ))) : List (ℚ × EStats) :=
  pss.foldl (fun m ps => ps.foldl (fun m p => updateStats m p.1 p.2) m) []

/-- The radicand of the cost, as a function of the pair streams alone. -/
def devTotal (pss : List (List (ℚ × ℚ))) : ℚ :=
  let stats := statsOfPairs pss
  (pss.map fun ps => (ps.map fun p => (p.2 - meanOf stats p.1) ^ 2).sum).sum

theorem statsOfVoice_foldl (jw : ℚ) (voices : List (List ENote)) :
    voices.foldl (statsOfVoice jw) [] = statsOfPairs (voicePairs jw voices) := by
  unfold statsOfPairs voicePairs
  rw [List.foldl_map]
  rfl

theorem devMap_passB (stats : List (ℚ × EStats)) (jw : ℚ) (notes : List ENote) :
    ((voicePassB jw notes).map fun n =>
        (n.fm.spaceUsed - meanOf stats n.durationKey) ^ 2)
      = (voiceUsed jw notes).map fun p => (p.2 - meanOf stats p.1) ^ 2 := by
  unfold voicePassB voiceUsed
  rw [List.map_map, List.map_map]
  rfl

theorem evaluate_cost_char (st : EvalState) :
    (Formatter.evaluate st).2 =
      Real.sqrt ((devTotal (voicePairs st.justifyWidth st.voices) : ℚ) : ℝ) := by
  have hdev :
      ((st.voices.map (voicePassB st.justifyWidth)).map fun notes =>
        (notes.map fun n =>
          (n.fm.spaceUsed -
            meanOf (st.voices.foldl (statsOfVoice st.justifyWidth) []) n.durationKey) ^ 2).sum).sum
      = devTotal (voicePairs st.justifyWidth st.voices) := by
    unfold devTotal
    rw [← statsOfVoice_foldl]
    unfold voicePairs
    simp only [List.map_map]
    refine congrArg List.sum (List.map_congr_left fun notes _ => ?_)
    simp only [Function.comp]
    exact congrArg List.sum (devMap_passB _ _ _)
  show Real.sqrt _ = _
  rw [← hdev]

theorem voiceUsed_preserved (jw jw2 : ℚ) (stats : List (ℚ × EStats))
    (notes : List ENote) :
    voiceUsed jw ((voicePassB jw2 notes).map (passCNote stats)) = voiceUsed jw notes := by
  have hlen : ((voicePassB jw2 notes).map (passCNote stats)).length = notes.length := by
    simp [voicePassB]
  have hx : ∀ j, j < notes.length →
      (((voicePassB jw2 notes).map (passCNote stats)).getD j default).x =
        (notes.getD j default).x := by
    intro j hj
    simp [voicePassB, passCNote, List.getD_eq_getElem?_getD, List.getElem?_map,
      List.getElem?_range, hj]
  have hkey : ∀ j, j < notes.length →
      (((voicePassB jw2 notes).map (passCNote stats)).getD j default).durationKey =
        (notes.getD j default).durationKey := by
    intro j hj
    simp [voicePassB, passCNote, List.getD_eq_getElem?_getD, List.getElem?_map,
      List.getElem?_range, hj]
  unfold voiceUsed
  rw [hlen]
  refine List.map_congr_left fun i hi => ?_
  rw [List.mem_range] at hi
  have hspace : spaceUsedOf jw ((voicePassB jw2 notes).map (passCNote stats)) i =
      spaceUsedOf jw notes i := by
    unfold spaceUsedOf
    rw [hlen]
    by_cases h : i + 1 < notes.length
    · rw [if_pos h, if_pos h, hx (i + 1) h, hx i hi]
    · rw [if_neg h, if_neg h, hx i hi]
  rw [hkey i hi, hspace]

/-- C3: with no position change between them — the first call's own state
mutations touch only formatter metrics, duration statistics, gap records
and the loss history, never an x position — two consecutive `evaluate`
calls return the same cost. -/
theorem evaluate_idempotent_cost (st : EvalState) :
    (Formatter.evaluate (Formatter.evaluate st).1).2 = (Formatter.evaluate st).2 := by
  rw [evaluate_cost_char, evaluate_cost_char]
  have hjw : (Formatter.evaluate st).1.justifyWidth = st.justifyWidth := rfl
  have hv : voicePairs (Formatter.evaluate st).1.justifyWidth
      (Formatter.evaluate st).1.voices = voicePairs st.justifyWidth st.voices := by
    rw [hjw]
    show voicePairs st.justifyWidth
        ((st.voices.map (voicePassB st.justifyWidth)).map
          (List.map (passCNote (st.voices.foldl (statsOfVoice st.justifyWidth) [])))) =
      voicePairs st.justifyWidth st.voices
    unfold voicePairs
    simp only [List.map_map]
    refine List.map_congr_left fun notes _ => ?_
    simp only [Function.comp]
    exact voiceUsed_preserved _ _ _ _
  rw [hv]

/-! ### The justification correction loop of preFormat (C5)

`preFormat` (lines 874-883) reaches the loop only with `justifyWidth > 0`
(line 712 returns early otherwise) and at least two tick contexts (line
839 returns early on a single context).  The loop guard is
`(actualWidth > maxX && iterations > 0) ||
 (actualWidth + paddingMax < maxX && iterations > 1)` with `maxX` fixed
before the loop; the body re-derives `targetWidth`, `paddingMax`,
`paddingMin` and `actualWidth` and decrements `iterations`, which starts
at `maxIterations` (constructor line 361, default 5).  The geometric
recomputation — `paddingMaxCalc` and
`shiftToIdealDistances(calculateIdealDistances(targetWidth))`, closures
over the mutating tick contexts — is abstracted into parameters `pmc`
and `reflow` over an opaque context-state type; the bound is proved for
every behaviour of these parameters, which subsumes the source
closures. -/

/-- `maxIterations` as set by the constructor when no option overrides
it (line 361). -/
def Formatter.defaultMaxIterations : ℕ := 5

/-- The loop-carried mutable locals of the justification loop. -/
structure JustifyLoopState where
  targetWidth : ℚ
  actualWidth : ℚ
  paddingMax : ℚ
  paddingMin : ℚ
  iterations : ℕ
  deriving Repr

/-- The loop guard of line 880. -/
def justifyGuard (maxX aw pmax : ℚ) (it : ℕ) : Bool :=
  (decide (aw > maxX) && decide (it > 0)) ||
    (decide (aw + pmax < maxX) && decide (it > 1))

/-- The loop body of lines 881-882: re-derive the target width, the
padding band and the realized width (`reflow t` recomputes the contexts'
x positions for target width `t` and returns
`shiftToIdealDistances(calculateIdealDistances(t))`), and decrement the
iteration counter. -/
def Formatter.justifyStep {σ : Type} (pmc : ℚ → ℚ) (reflow : ℚ → σ → σ × ℚ)
    (configMaxPadding configMinPadding maxX : ℚ) (s : σ × JustifyLoopState) :
    σ × JustifyLoopState :=
  let targetWidth := s.2.targetWidth - (s.2.actualWidth - maxX)
  let paddingMax := pmc targetWidth
  let paddingMin := paddingMax - (configMaxPadding - configMinPadding)
  let rf := reflow targetWidth s.1
  (rf.1, ⟨targetWidth, rf.2, paddingMax, paddingMin, s.2.iterations - 1⟩)

/-- The loop of lines 874-883 over an abstract context state `σ`.
Returns the final state together with the number of body executions. -/
def Formatter.justifyLoop {σ : Type} (pmc : ℚ → ℚ) (reflow : ℚ → σ → σ × ℚ)
    (configMaxPadding configMinPadding maxX : ℚ) (s : σ × JustifyLoopState) :
    (σ × JustifyLoopState) × ℕ :=
  if justifyGuard maxX s.2.actualWidth s.2.paddingMax s.2.iterations then
    let r := Formatter.justifyLoop pmc reflow configMaxPadding configMinPadding maxX
      (Formatter.justifyStep pmc reflow configMaxPadding configMinPadding maxX s)
    (r.1, r.2 + 1)
  else (s, 0)
termination_by s.2.iterations
decreasing_by
  simp only [justifyGuard, Bool.or_eq_true, Bool.and_eq_true, decide_eq_true_eq,
    Formatter.justifyStep] at *
  omega

theorem justifyStep_iterations {σ : Type} (pmc : ℚ → ℚ) (reflow : ℚ → σ → σ × ℚ)
    (cMax cMin maxX : ℚ) (s : σ × JustifyLoopState) :
    (Formatter.justifyStep pmc reflow cMax cMin maxX s).2.iterations =
      s.2.iterations - 1 := rfl

theorem justifyGuard_zero (maxX aw pmax : ℚ) : justifyGuard maxX aw pmax 0 = false := by
  simp [justifyGuard]

theorem justifyLoop_bound_aux {σ : Type} (pmc : ℚ → ℚ) (reflow : ℚ → σ → σ × ℚ)
    (cMax cMin maxX : ℚ) :
    ∀ (n : ℕ) (s : σ × JustifyLoopState), s.2.iterations ≤ n →
      (Formatter.justifyLoop pmc reflow cMax cMin maxX s).2 ≤ s.2.iterations ∧
      (let r := Formatter.justifyLoop pmc reflow cMax cMin maxX s
       justifyGuard maxX r.1.2.actualWidth r.1.2.paddingMax r.1.2.iterations = false) := by
  intro n
  induction n with
  | zero =>
    intro s hs
    have hit : s.2.iterations = 0 := Nat.le_zero.mp hs
    have hg : justifyGuard maxX s.2.actualWidth s.2.paddingMax s.2.iterations = false := by
      rw [hit]
      exact justifyGuard_zero _ _ _
    rw [Formatter.justifyLoop, if_neg (by simp [hg])]
    exact ⟨Nat.zero_le _, hg⟩
  | succ n ih =>
    intro s hs
    by_cases hg : justifyGuard maxX s.2.actualWidth s.2.paddingMax s.2.iterations = true
    · have hpos : 0 < s.2.iterations := by
        simp only [justifyGuard, Bool.or_eq_true, Bool.and_eq_true, decide_eq_true_eq] at hg
        omega
      obtain ⟨h1, h2⟩ := ih (Formatter.justifyStep pmc reflow cMax cMin maxX s)
        (by rw [justifyStep_iterations]; omega)
      rw [Formatter.justifyLoop, if_pos hg]
      constructor
      · show (Formatter.justifyLoop pmc reflow cMax cMin maxX
            (Formatter.justifyStep pmc reflow cMax cMin maxX s)).2 + 1 ≤ s.2.iterations
        rw [justifyStep_iterations] at h1
        omega
      · show justifyGuard maxX
            (Formatter.justifyLoop pmc reflow cMax cMin maxX
              (Formatter.justifyStep pmc reflow cMax cMin maxX s)).1.2.actualWidth
            (Formatter.justifyLoop pmc reflow cMax cMin maxX
              (Formatter.justifyStep pmc reflow cMax cMin maxX s)).1.2.paddingMax
            (Formatter.justifyLoop pmc reflow cMax cMin maxX
              (Formatter.justifyStep pmc reflow cMax cMin maxX s)).1.2.iterations = false
        exact h2
    · rw [Formatter.justifyLoop, if_neg hg]
      exact ⟨Nat.zero_le _, Bool.eq_false_iff.mpr hg⟩

/-- C5: the justification loop runs its body at most `iterations`-many
times (so at most `maxIterations = 5` by default) for every behaviour of
the abstracted geometry, hence `preFormat` terminates; at exit the guard
is false, which means the realized width is inside the padding band
`[maxX - paddingMax, maxX]` or the iteration budget is exhausted — the
loop does not guarantee the band is reached, as the concrete run in the
last conjunct exits above `maxX` with zero iterations left. -/
theorem preFormat_justify_loop_bounded {σ : Type} (pmc : ℚ → ℚ)
    (reflow : ℚ → σ → σ × ℚ) (cMax cMin maxX : ℚ) (s : σ × JustifyLoopState) :
    (Formatter.justifyLoop pmc reflow cMax cMin maxX s).2 ≤ s.2.iterations ∧
    Formatter.defaultMaxIterations = 5 ∧
    (let r := Formatter.justifyLoop pmc reflow cMax cMin maxX s
     justifyGuard maxX r.1.2.actualWidth r.1.2.paddingMax r.1.2.iterations = false) ∧
    (let r := Formatter.justifyLoop pmc reflow cMax cMin maxX s
     (r.1.2.actualWidth ≤ maxX ∧ maxX ≤ r.1.2.actualWidth + r.1.2.paddingMax) ∨
       r.1.2.iterations ≤ 1) ∧
    (let ex := Formatter.justifyLoop (fun _ => 0) (fun _ (u : Unit) => (u, 1)) 0 0 0
      ((), ⟨0, 1, 0, 0, 1⟩)
     ex.2 = 1 ∧ ex.1.2.iterations = 0 ∧ ex.1.2.actualWidth > 0) := by
  obtain ⟨h1, h2⟩ := justifyLoop_bound_aux pmc reflow cMax cMin maxX s.2.iterations s le_rfl
  refine ⟨h1, rfl, h2, ?_, ?_⟩
  · set r := Formatter.justifyLoop pmc reflow cMax cMin maxX s with hr
    have hx := h2
    simp only [justifyGuard, Bool.or_eq_false_iff, Bool.and_eq_false_iff,
      decide_eq_false_iff_not, not_lt] at hx
    obtain ⟨ha, hb⟩ := hx
    by_cases hit : r.1.2.iterations ≤ 1
    · exact Or.inr hit
    · refine Or.inl ⟨?_, ?_⟩
      · rcases ha with ha | ha
        · exact ha
        · omega
      · rcases hb with hb | hb
        · exact hb
        · omega
  · have hguard1 : justifyGuard 0 1 0 1 = true := by
      norm_num [justifyGuard]
    have hex : Formatter.justifyLoop (fun _ => 0) (fun _ (u : Unit) => (u, 1)) 0 0 0
        ((), ⟨0, 1, 0, 0, 1⟩) =
        (Formatter.justifyStep (fun _ => 0) (fun _ (u : Unit) => (u, 1)) 0 0 0
          ((), ⟨0, 1, 0, 0, 1⟩), 1) := by
      rw [Formatter.justifyLoop, if_pos hguard1, Formatter.justifyLoop,
        if_neg (by simp [justifyStep_iterations, justifyGuard_zero])]
    rw [hex]
    refine ⟨rfl, rfl, ?_⟩
    show (0 : ℚ) < 1
    norm_num

end Vex
